import Mathlib

/-!
Shallow embedding of `src/mass-spring-explicit.py` (a 2D taichi mass-spring
cantilever simulator) and proofs about it.

Conventions of the embedding:
* taichi `f32` scalars are modelled as real numbers (`ℝ`); `.norm()` is
  `Real.sqrt` of the sum of squared components, and division follows the
  real-field convention (`x / 0 = 0`).
* taichi fields (fixed-size arrays) are modelled as total functions from `ℕ`;
  kernels that loop `for i in range(n)` only touch indices `< n`.
* module-level constants of the script become Lean constants with the same
  names; module-level *mutable* globals read by a kernel (`integration`,
  `damping_toggle`, `picking`, `curser`, `YoungsModulus`, and the grid sizes)
  become explicit parameters of the kernel's embedding, and the script's
  values are instantiated where a claim is about the script's configuration.
-/

namespace MassSpring

/-! ### Grid constants (source lines 19-41) -/

/-- Source line 19: `init_x, init_y = 0.1, 0.6` (x part). -/
def init_x : ℝ := 0.1

/-- Source line 19: `init_x, init_y = 0.1, 0.6` (y part). -/
def init_y : ℝ := 0.6

/-- Source line 20: `N_x = 20`. -/
def N_x : ℕ := 20

/-- Source line 21: `N_y = 4`. -/
def N_y : ℕ := 4

/-- Source line 24: `N = N_x*N_y`. -/
def N : ℕ := N_x * N_y

/-- Source line 28: `dx = 1/32`. -/
noncomputable def dx : ℝ := 1 / 32

/-- Source line 29: `curser_radius = dx/2`. -/
noncomputable def curser_radius : ℝ := dx / 2

/-- Source line 32: `m = 1`. -/
def m : ℝ := 1

/-- Source line 33: `g = 9.8` (the script's gravity value; kernels take the
gravity value as a parameter so that the zero-gravity test configuration of
the spec can be expressed, and the script's kernels use this value). -/
def g : ℝ := 9.8

/-- Source line 37: `h = 16.7e-3`. -/
def h : ℝ := 16.7e-3

/-- Source line 39: `substepping = 100`. -/
def substepping : ℕ := 100

/-- Source line 41: `dh = h/substepping`. -/
noncomputable def dh : ℝ := h / (substepping : ℝ)

/-- Source line 16: `integration = 2` (1: explicit euler, 2: symplectic
euler, 3: implicit euler, never implemented). -/
def integration : ℕ := 2

/-- Source line 98: the value `3e4` assigned to `YoungsModulus[None]` by the
`initialize` kernel. -/
def Y0 : ℝ := 3e4

/-! ### Topology builder (source lines 53-93)

The `meshing` kernel fills the `edges` and `triangles` arrays by writes at
computed indices.  In each of its loops the write index is exactly the rank
of the loop iteration (`eid = eid_base + i*inner + j` with `(i, j)` iterated
row-major), so each array is embedded as the list of written values in loop
order; list position = array index. -/

/-- Source line 53: `def ij_2_index(i, j): return i * N_y + j`, with the grid
height `Ny` (the script's global `N_y`) taken as a parameter. -/
def ij_2_index (Ny i j : ℕ) : ℕ := i * Ny + j

/-- Source lines 59-69: the two triangles emitted per grid cell `(i, j)`,
written at indices `(i*(N_y-1)+j)*2` and `(i*(N_y-1)+j)*2 + 1`, which is the
rank of the pair in row-major cell order. -/
def trianglesOf (Nx Ny : ℕ) : List (ℕ × ℕ × ℕ) :=
  (List.range (Nx - 1)).flatMap fun i =>
    (List.range (Ny - 1)).flatMap fun j =>
      [(ij_2_index Ny i j, ij_2_index Ny (i + 1) j, ij_2_index Ny i (j + 1)),
       (ij_2_index Ny i (j + 1), ij_2_index Ny (i + 1) (j + 1), ij_2_index Ny (i + 1) j)]

/-- Source lines 76-79: horizontal edges, written at `eid = i*N_y + j`. -/
def hEdgesOf (Nx Ny : ℕ) : List (ℕ × ℕ) :=
  (List.range (Nx - 1)).flatMap fun i =>
    (List.range Ny).map fun j => (ij_2_index Ny i j, ij_2_index Ny (i + 1) j)

/-- Source lines 83-86: vertical edges, written at `eid = (N_x-1)*N_y +
i*(N_y-1) + j`. -/
def vEdgesOf (Nx Ny : ℕ) : List (ℕ × ℕ) :=
  (List.range Nx).flatMap fun i =>
    (List.range (Ny - 1)).map fun j => (ij_2_index Ny i j, ij_2_index Ny i (j + 1))

/-- Source lines 90-93: diagonal edges, written at `eid = (N_x-1)*N_y +
N_x*(N_y-1) + i*(N_y-1) + j`. -/
def dEdgesOf (Nx Ny : ℕ) : List (ℕ × ℕ) :=
  (List.range (Nx - 1)).flatMap fun i =>
    (List.range (Ny - 1)).map fun j => (ij_2_index Ny (i + 1) j, ij_2_index Ny i (j + 1))

/-- Source lines 71-93: the full edge array in index order: horizontal block,
then vertical block, then diagonal block. -/
def edgesOf (Nx Ny : ℕ) : List (ℕ × ℕ) :=
  hEdgesOf Nx Ny ++ vEdgesOf Nx Ny ++ dEdgesOf Nx Ny

/-- Length of a `flatMap` whose inner lists all have the same length. -/
theorem length_flatMap_const {α β : Type} (l : List α) (f : α → List β) (k : ℕ)
    (hf : ∀ a ∈ l, (f a).length = k) : (l.flatMap f).length = l.length * k := by
  induction l with
  | nil => simp
  | cons a t ih =>
      simp only [List.flatMap_cons, List.length_append, List.length_cons]
      rw [hf a (by simp), ih (fun b hb => hf b (by simp [hb]))]
      ring

theorem hEdgesOf_length (Nx Ny : ℕ) : (hEdgesOf Nx Ny).length = (Nx - 1) * Ny := by
  unfold hEdgesOf
  rw [length_flatMap_const _ _ Ny (by intro a _; simp)]
  simp

theorem vEdgesOf_length (Nx Ny : ℕ) : (vEdgesOf Nx Ny).length = Nx * (Ny - 1) := by
  unfold vEdgesOf
  rw [length_flatMap_const _ _ (Ny - 1) (by intro a _; simp)]
  simp

theorem dEdgesOf_length (Nx Ny : ℕ) : (dEdgesOf Nx Ny).length = (Nx - 1) * (Ny - 1) := by
  unfold dEdgesOf
  rw [length_flatMap_const _ _ (Ny - 1) (by intro a _; simp)]
  simp

theorem edgesOf_length (Nx Ny : ℕ) :
    (edgesOf Nx Ny).length = (Nx - 1) * Ny + Nx * (Ny - 1) + (Nx - 1) * (Ny - 1) := by
  simp only [edgesOf, List.length_append, hEdgesOf_length, vEdgesOf_length, dEdgesOf_length]

theorem trianglesOf_length (Nx Ny : ℕ) :
    (trianglesOf Nx Ny).length = 2 * (Nx - 1) * (Ny - 1) := by
  unfold trianglesOf
  rw [length_flatMap_const _ _ ((Ny - 1) * 2) ?_]
  · simp only [List.length_range]; ring
  · intro i _
    rw [length_flatMap_const _ _ 2 (by intro j _; simp)]
    simp only [List.length_range]

/-- Every member of the horizontal block joins a node to its right neighbor. -/
theorem hEdgesOf_shape (Nx Ny : ℕ) (p : ℕ × ℕ) (hp : p ∈ hEdgesOf Nx Ny) :
    ∃ i j, i + 1 < Nx ∧ j < Ny ∧ p = (ij_2_index Ny i j, ij_2_index Ny (i + 1) j) := by
  unfold hEdgesOf at hp
  simp only [List.mem_flatMap, List.mem_map, List.mem_range] at hp
  obtain ⟨i, hi, j, hj, rfl⟩ := hp
  exact ⟨i, j, by omega, hj, rfl⟩

/-- Every member of the vertical block joins a node to its upper neighbor. -/
theorem vEdgesOf_shape (Nx Ny : ℕ) (p : ℕ × ℕ) (hp : p ∈ vEdgesOf Nx Ny) :
    ∃ i j, i < Nx ∧ j + 1 < Ny ∧ p = (ij_2_index Ny i j, ij_2_index Ny i (j + 1)) := by
  unfold vEdgesOf at hp
  simp only [List.mem_flatMap, List.mem_map, List.mem_range] at hp
  obtain ⟨i, hi, j, hj, rfl⟩ := hp
  exact ⟨i, j, hi, by omega, rfl⟩

/-- Every member of the diagonal block joins a cell's lower-right node to its
upper-left node (one diagonal per cell). -/
theorem dEdgesOf_shape (Nx Ny : ℕ) (p : ℕ × ℕ) (hp : p ∈ dEdgesOf Nx Ny) :
    ∃ i j, i + 1 < Nx ∧ j + 1 < Ny ∧ p = (ij_2_index Ny (i + 1) j, ij_2_index Ny i (j + 1)) := by
  unfold dEdgesOf at hp
  simp only [List.mem_flatMap, List.mem_map, List.mem_range] at hp
  obtain ⟨i, hi, j, hj, rfl⟩ := hp
  exact ⟨i, j, by omega, by omega, rfl⟩

/-! ### Vectors and node initialization (source lines 44-47, 96-104) -/

/-- A taichi 2-vector of `f32`, modelled as a pair of reals. -/
abbrev Vec2 := ℝ × ℝ

/-- taichi `r.norm()` for a 2-vector: the Euclidean norm. -/
noncomputable def norm2 (r : Vec2) : ℝ := Real.sqrt (r.1 ^ 2 + r.2 ^ 2)

/-- Componentwise scalar multiple, taichi `c * vec` / `vec * c`. -/
def svec (c : ℝ) (r : Vec2) : Vec2 := (c * r.1, c * r.2)

/-- Source lines 96-104, the position part of the `initialize` kernel: for
every `(i, j)` in `ndrange(N_x, N_y)` it writes `x[ij_2_index(i, j)] =
(init_x + i*dx, init_y + j*dx)`.  As a function of the flat index `idx =
i*N_y + j` (with `j < N_y`) this is `i = idx / N_y`, `j = idx % N_y`; indices
outside the field keep taichi's zero-initialized value.  Grid sizes are
parameters; the script instantiates `Nx = N_x`, `Ny = N_y`. -/
noncomputable def gridPos (Ny idx : ℕ) : Vec2 :=
  (init_x + ((idx / Ny : ℕ) : ℝ) * dx, init_y + ((idx % Ny : ℕ) : ℝ) * dx)

/-- `initialize` acting on a zero-initialized position field. -/
noncomputable def initNodes (Nx Ny : ℕ) : ℕ → Vec2 := fun idx =>
  if idx < Nx * Ny then gridPos Ny idx else (0, 0)

theorem gridPos_ij (Ny i j : ℕ) (hj : j < Ny) :
    gridPos Ny (ij_2_index Ny i j) = (init_x + (i : ℝ) * dx, init_y + (j : ℝ) * dx) := by
  have hdiv : (i * Ny + j) / Ny = i := by
    rw [Nat.mul_comm, Nat.mul_add_div (by omega : 0 < Ny), Nat.div_eq_of_lt hj, Nat.add_zero]
  have hmod : (i * Ny + j) % Ny = j := by
    rw [Nat.mul_comm, Nat.mul_add_mod, Nat.mod_eq_of_lt hj]
  simp [gridPos, ij_2_index, hdiv, hmod]

theorem ij_lt_of_lt (Nx Ny i j : ℕ) (hi : i < Nx) (hj : j < Ny) :
    ij_2_index Ny i j < Nx * Ny := by
  unfold ij_2_index
  calc i * Ny + j < i * Ny + Ny := by omega
  _ = (i + 1) * Ny := by ring
  _ ≤ Nx * Ny := Nat.mul_le_mul_right _ (by omega)

theorem initNodes_ij (Nx Ny i j : ℕ) (hi : i < Nx) (hj : j < Ny) :
    initNodes Nx Ny (ij_2_index Ny i j) =
      (init_x + (i : ℝ) * dx, init_y + (j : ℝ) * dx) := by
  rw [initNodes, if_pos (ij_lt_of_lt Nx Ny i j hi hj), gridPos_ij Ny i j hj]

/-! ### Spring rest-length initializer (source lines 106-112) -/

/-- Source lines 106-112, the `initialize_springs` kernel: for every edge id
`e < N_edges` it writes `spring_length[e] = (x[a] - x[b]).norm()` with
`(a, b) = edges[e]`.  The edge array is the list `E`; the write loop is a
fold of pointwise updates over the edge ids, starting from taichi's
zero-initialized field. -/
noncomputable def initialize_springs (E : List (ℕ × ℕ)) (x : ℕ → Vec2) : ℕ → ℝ :=
  (List.range E.length).foldl
    (fun sl e =>
      Function.update sl e (norm2 (x (E.getD e (0, 0)).1 - x (E.getD e (0, 0)).2)))
    fun _ => 0

/-- Generic last-write lemma for a fold of distinct-key updates over
`List.range n`. -/
theorem foldl_update_range {β : Type} (f : ℕ → β) (z : ℕ → β) :
    ∀ (n e : ℕ), e < n →
      ((List.range n).foldl (fun sl i => Function.update sl i (f i)) z) e = f e := by
  intro n
  induction n with
  | zero => intro e he; omega
  | succ k ih =>
      intro e he
      rw [List.range_succ, List.foldl_append, List.foldl_cons, List.foldl_nil]
      rcases Nat.lt_or_ge e k with hek | hek
      · rw [Function.update_noteq (by omega)]
        exact ih e hek
      · have : e = k := by omega
        subst this
        rw [Function.update_same]

theorem initialize_springs_eq (E : List (ℕ × ℕ)) (x : ℕ → Vec2) (e : ℕ)
    (he : e < E.length) :
    initialize_springs E x e = norm2 (x (E.getD e (0, 0)).1 - x (E.getD e (0, 0)).2) := by
  unfold initialize_springs
  exact foldl_update_range _ _ E.length e he

/-! ### Force/gradient accumulator (source lines 115-130) -/

/-- Source lines 122-128: the per-edge contribution of edge `e = (a, b)`:
`r = x[a] - x[b]`, `l = r.norm()`, `l0 = spring_length[e]`,
`k = YoungsModulus/l0`, `gradient = k*(l-l0)*r/l` (componentwise vector
arithmetic).  The division follows the real-field convention `x/0 = 0`;
in the source, coincident nodes (`l = 0`) instead yield `0.0/0.0 = NaN` in
`f32`, a degenerate regime no theorem in this file relies on: every theorem
that evaluates a gradient does so at a configuration with positive edge
lengths. -/
noncomputable def springGrad (Y : ℝ) (sl : ℕ → ℝ) (x : ℕ → Vec2) (e : ℕ) (ab : ℕ × ℕ) :
    Vec2 :=
  let r := x ab.1 - x ab.2
  let l := norm2 r
  let l0 := sl e
  let k := Y / l0
  (k * (l - l0) * r.1 / l, k * (l - l0) * r.2 / l)

/-- Source lines 115-130, the `compute_gradient` kernel: zero the gradient
field, then for every edge `e = (a, b)` add the contribution to `grad[a]` and
subtract it from `grad[b]`.  `E.enum` pairs each edge with its id. -/
noncomputable def compute_gradient (E : List (ℕ × ℕ)) (Y : ℝ) (sl : ℕ → ℝ)
    (x : ℕ → Vec2) : ℕ → Vec2 :=
  E.enum.foldl
    (fun gr p =>
      let gradient := springGrad Y sl x p.1 p.2
      let gr1 := Function.update gr p.2.1 (gr p.2.1 + gradient)
      Function.update gr1 p.2.2 (gr1 p.2.2 - gradient))
    fun _ => (0, 0)

/-! ### Time integrator and constraints (source lines 132-169) -/

/-- Mutable simulation state: the `x` and `v` fields. -/
@[ext]
structure SimState where
  x : ℕ → Vec2
  v : ℕ → Vec2

/-- The per-substep inputs and configuration of the `update` kernel: the
integration-mode flag (source line 16), the gravity constant (line 33), the
damping toggle, picking flag and cursor (lines 8-10), and the grid's node
count `N` and height `N_y` (lines 20-24).  The script's run uses
`mode = integration`, `grav = g`, `Nn = N`, `Ny = N_y`. -/
structure Params where
  mode : ℕ
  grav : ℝ
  damp : Bool
  pick : Bool
  cur : Vec2
  Nn : ℕ
  Ny : ℕ

/-- Source line 140/145: `acc = -grad[i]/m - ti.Vector([0.0, g])`. -/
noncomputable def acc (gr : Vec2) (grav : ℝ) : Vec2 :=
  (-gr.1 / m - 0, -gr.2 / m - grav)

/-- Source lines 136-147: the body of the integration loop for one node.
Mode 1 (explicit Euler): `x += dh*v` with the pre-update velocity, then
`v += dh*acc`.  Mode 2 (symplectic Euler): `v += dh*acc`, then `x += dh*v`
with the updated velocity.  Any other mode matches no branch and leaves the
node untouched. -/
noncomputable def integNode (mode : ℕ) (grav : ℝ) (gri : Vec2) (xv : Vec2 × Vec2) :
    Vec2 × Vec2 :=
  if mode = 1 then
    let x1 := xv.1 + svec dh xv.2
    let v1 := xv.2 + svec dh (acc gri grav)
    (x1, v1)
  else if mode = 2 then
    let v1 := xv.2 + svec dh (acc gri grav)
    let x1 := xv.1 + svec dh v1
    (x1, v1)
  else xv

/-- Source lines 134-147: `for i in range(N):` apply `integNode`. -/
noncomputable def integPass (P : Params) (gr : ℕ → Vec2) (s : SimState) : SimState where
  x := fun i => if i < P.Nn then (integNode P.mode P.grav (gr i) (s.x i, s.v i)).1 else s.x i
  v := fun i => if i < P.Nn then (integNode P.mode P.grav (gr i) (s.x i, s.v i)).2 else s.v i

/-- Source lines 149-152: `for i in v: if damping_toggle: v[i] *= exp(-dh*5)`. -/
noncomputable def dampPass (P : Params) (s : SimState) : SimState where
  x := s.x
  v := fun i =>
    if i < P.Nn then (if P.damp then svec (Real.exp (-dh * 5)) (s.v i) else s.v i)
    else s.v i

/-- Source lines 154-160: `for i in range(N): if picking:` snap any node
with `(x[i]-curser).norm() < curser_radius` to the cursor with zero
velocity. -/
noncomputable def pickPass (P : Params) (s : SimState) : SimState where
  x := fun i =>
    if i < P.Nn ∧ P.pick = true ∧ norm2 (s.x i - P.cur) < curser_radius then P.cur
    else s.x i
  v := fun i =>
    if i < P.Nn ∧ P.pick = true ∧ norm2 (s.x i - P.cur) < curser_radius then (0, 0)
    else s.v i

/-- Source lines 161-164: `for j in range(N_y):` pin node `ij_2_index(0, j)`
(which equals `j`) to its rest pose `(init_x, init_y + j*dx)` with zero
velocity. -/
noncomputable def wallPass (P : Params) (s : SimState) : SimState where
  x := fun i => if i < P.Ny then (init_x, init_y + (i : ℝ) * dx) else s.x i
  v := fun i => if i < P.Ny then (0, 0) else s.v i

/-- Source lines 166-169: `for i in range(N): if x[i][0] < init_x:` clamp the
x-coordinate to `init_x` and zero the x-velocity. -/
noncomputable def clampPass (P : Params) (s : SimState) : SimState where
  x := fun i => if i < P.Nn ∧ (s.x i).1 < init_x then (init_x, (s.x i).2) else s.x i
  v := fun i => if i < P.Nn ∧ (s.x i).1 < init_x then (0, (s.v i).2) else s.v i

/-- Source lines 132-169, the `update` kernel: integration loop, damping
loop, picking loop, wall loop, clamp loop, in program order, given the
gradient field computed by the preceding `compute_gradient` call. -/
noncomputable def update (P : Params) (gr : ℕ → Vec2) (s : SimState) : SimState :=
  clampPass P (wallPass P (pickPass P (dampPass P (integPass P gr s))))

/-- One substep of the driver loop (source lines 196-199 / 205-209):
`compute_gradient()` then `update()`. -/
noncomputable def substep (P : Params) (E : List (ℕ × ℕ)) (Y : ℝ) (sl : ℕ → ℝ)
    (s : SimState) : SimState :=
  update P (compute_gradient E Y sl s.x) s

/-! ### The script's configuration (source lines 172-209) -/

/-- The edge array produced by `meshing()` at the script's grid size. -/
def edgesC : List (ℕ × ℕ) := edgesOf N_x N_y

/-- The triangle array produced by `meshing()` at the script's grid size. -/
def trianglesC : List (ℕ × ℕ × ℕ) := trianglesOf N_x N_y

/-- The node positions right after the startup `initialize()` call. -/
noncomputable def x0C : ℕ → Vec2 := initNodes N_x N_y

/-- The rest lengths computed by the startup `initialize_springs()` call. -/
noncomputable def slC : ℕ → ℝ := initialize_springs edgesC x0C

/-- The `update` parameters of the script's run: integration mode 2, gravity
`g`, grid size `N`/`N_y`, with the frame's damping toggle, picking flag and
cursor. -/
noncomputable def paramsC (dampB pickB : Bool) (cur : Vec2) : Params :=
  ⟨integration, g, dampB, pickB, cur, N, N_y⟩

/-- One substep of the script's run (lines 196-199 / 205-209) under the
frame's inputs: the damping toggle, picking flag, cursor, and current
`YoungsModulus` value. -/
noncomputable def substepC (dampB pickB : Bool) (cur : Vec2) (Ymod : ℝ)
    (s : SimState) : SimState :=
  substep (paramsC dampB pickB cur) edgesC Ymod slC s

/-! ### The full mutable store and the `initialize` kernel (lines 96-104) -/

/-- All taichi fields the kernels read or write: node positions/velocities,
spring rest lengths, the topology arrays, and the Young's-modulus scalar. -/
structure FullState where
  x : ℕ → Vec2
  v : ℕ → Vec2
  spring_length : ℕ → ℝ
  edges : List (ℕ × ℕ)
  triangles : List (ℕ × ℕ × ℕ)
  YoungsModulus : ℝ

/-- Source lines 96-104, the `initialize` kernel (also the handler of the
`r` key, line 187): sets `YoungsModulus[None] = 3e4` and, for every grid
node, position `(init_x + i*dx, init_y + j*dx)` and zero velocity.  The
assignment `paused = True` on line 99 binds a kernel-local name and has no
effect on the store.  No other field is touched. -/
noncomputable def initializeK (st : FullState) : FullState :=
  { st with
    YoungsModulus := 3e4
    x := fun idx => if idx < N then gridPos N_y idx else st.x idx
    v := fun idx => if idx < N then (0, 0) else st.v idx }

/-! ### Norm evaluation lemmas -/

theorem norm2_pair (a b : ℝ) : norm2 (a, b) = Real.sqrt (a ^ 2 + b ^ 2) := rfl

theorem norm2_x0 (t : ℝ) : norm2 (t, 0) = |t| := by
  rw [norm2_pair]
  rw [show t ^ 2 + (0 : ℝ) ^ 2 = t ^ 2 by ring, Real.sqrt_sq_eq_abs]

theorem norm2_0y (t : ℝ) : norm2 (0, t) = |t| := by
  rw [norm2_pair]
  rw [show (0 : ℝ) ^ 2 + t ^ 2 = t ^ 2 by ring, Real.sqrt_sq_eq_abs]

theorem norm2_zero : norm2 ((0 : ℝ), (0 : ℝ)) = 0 := by
  rw [norm2_x0]
  exact abs_zero

/-! ### The gradient vanishes at a rest configuration -/

theorem enum_mem_spec {α : Type} (d : α) (E : List α) (p : ℕ × α) (hp : p ∈ E.enum) :
    p.1 < E.length ∧ E.getD p.1 d = p.2 := by
  rw [List.mem_enum_iff_getElem?] at hp
  refine ⟨(List.getElem?_eq_some.mp hp).1, ?_⟩
  rw [List.getD_eq_getElem?_getD, hp]
  rfl

/-- An edge whose current length equals its stored rest length contributes a
zero gradient. -/
theorem springGrad_rest (Y : ℝ) (sl : ℕ → ℝ) (x : ℕ → Vec2) (e : ℕ) (ab : ℕ × ℕ)
    (hrest : norm2 (x ab.1 - x ab.2) = sl e) :
    springGrad Y sl x e ab = (0, 0) := by
  simp only [springGrad]
  rw [hrest]
  simp

/-- If every enumerated edge in the list is at rest length, the accumulation
loop maps any gradient field to itself. -/
theorem gradFold_rest (Y : ℝ) (sl : ℕ → ℝ) (x : ℕ → Vec2) :
    ∀ (L : List (ℕ × (ℕ × ℕ))) (gr : ℕ → Vec2),
      (∀ p ∈ L, norm2 (x p.2.1 - x p.2.2) = sl p.1) →
      L.foldl
        (fun (gr : ℕ → Vec2) (p : ℕ × (ℕ × ℕ)) =>
          let gradient := springGrad Y sl x p.1 p.2
          let gr1 := Function.update gr p.2.1 (gr p.2.1 + gradient)
          Function.update gr1 p.2.2 (gr1 p.2.2 - gradient))
        gr = gr := by
  intro L
  induction L with
  | nil => intro gr _; rfl
  | cons q t ih =>
      intro gr hall
      rw [List.foldl_cons]
      have hq : springGrad Y sl x q.1 q.2 = (0, 0) :=
        springGrad_rest Y sl x q.1 q.2 (hall q (by simp))
      have hstep :
          (Function.update
            (Function.update gr q.2.1 (gr q.2.1 + springGrad Y sl x q.1 q.2)) q.2.2
            ((Function.update gr q.2.1 (gr q.2.1 + springGrad Y sl x q.1 q.2)) q.2.2 -
              springGrad Y sl x q.1 q.2)) = gr := by
        rw [hq]
        rw [show gr q.2.1 + ((0 : ℝ), (0 : ℝ)) = gr q.2.1 by
          rw [Prod.mk_zero_zero, add_zero]]
        rw [Function.update_eq_self]
        rw [show gr q.2.2 - ((0 : ℝ), (0 : ℝ)) = gr q.2.2 by
          rw [Prod.mk_zero_zero, sub_zero]]
        rw [Function.update_eq_self]
      simp only at hstep ⊢
      rw [hstep]
      exact ih gr (fun p hp => hall p (by simp [hp]))

/-- `compute_gradient` yields the zero field whenever every edge is at its
stored rest length. -/
theorem compute_gradient_rest (E : List (ℕ × ℕ)) (Y : ℝ) (sl : ℕ → ℝ) (x : ℕ → Vec2)
    (hrest : ∀ p ∈ E.enum, norm2 (x p.2.1 - x p.2.2) = sl p.1) :
    compute_gradient E Y sl x = fun _ => (0, 0) := by
  unfold compute_gradient
  exact gradFold_rest Y sl x E.enum _ hrest

/-- Right after `initialize_springs E x`, every edge of `E` is at its stored
rest length, so the gradient of that configuration is the zero field. -/
theorem compute_gradient_after_init (E : List (ℕ × ℕ)) (Y : ℝ) (x : ℕ → Vec2) :
    compute_gradient E Y (initialize_springs E x) x = fun _ => (0, 0) := by
  apply compute_gradient_rest
  intro p hp
  obtain ⟨hlt, hget⟩ := enum_mem_spec (0, 0) E p hp
  rw [initialize_springs_eq E x p.1 hlt, hget]

/-! ### Constraint-pass lemmas -/

theorem dampPass_x (P : Params) (s : SimState) : (dampPass P s).x = s.x := rfl

/-- The clamp loop guarantees `x[i][0] >= init_x` for every node it visits. -/
theorem clampPass_ge (P : Params) (s : SimState) (i : ℕ) (hi : i < P.Nn) :
    init_x ≤ ((clampPass P s).x i).1 := by
  unfold clampPass
  dsimp only
  split
  · exact le_refl _
  · next hcond => exact le_of_not_lt fun hlt => hcond ⟨hi, hlt⟩

/-- Pointwise behavior of the clamp loop at a visited node: an offending node
gets its x-coordinate set to `init_x` and its x-velocity zeroed, with both
y-components kept; any other node is untouched. -/
theorem clampPass_spec (P : Params) (s : SimState) (i : ℕ) (hi : i < P.Nn) :
    ((s.x i).1 < init_x →
        (clampPass P s).x i = (init_x, (s.x i).2) ∧
        (clampPass P s).v i = (0, (s.v i).2)) ∧
      (¬(s.x i).1 < init_x →
        (clampPass P s).x i = s.x i ∧ (clampPass P s).v i = s.v i) := by
  unfold clampPass
  constructor
  · intro hlt
    constructor <;> · dsimp only; rw [if_pos ⟨hi, hlt⟩]
  · intro hge
    constructor <;> · dsimp only; rw [if_neg (fun hc => hge hc.2)]

/-- After a full `update`, every wall node `ij_2_index(0, j) = j`, `j < N_y`,
sits at its rest pose with zero velocity: the wall loop writes it and the
clamp loop leaves it unchanged (its x-coordinate is exactly `init_x`). -/
theorem update_pins_wall (P : Params) (gr : ℕ → Vec2) (s : SimState) (j : ℕ)
    (hj : j < P.Ny) :
    (update P gr s).x j = (init_x, init_y + (j : ℝ) * dx) ∧
      (update P gr s).v j = (0, 0) := by
  unfold update
  set t := pickPass P (dampPass P (integPass P gr s)) with ht
  have hx : (wallPass P t).x j = (init_x, init_y + (j : ℝ) * dx) := by
    unfold wallPass; dsimp only; rw [if_pos hj]
  have hv : (wallPass P t).v j = (0, 0) := by
    unfold wallPass; dsimp only; rw [if_pos hj]
  have hnolt : ¬((wallPass P t).x j).1 < init_x := by
    rw [hx]; exact lt_irrefl _
  unfold clampPass
  dsimp only
  rw [if_neg (fun hc => hnolt hc.2), if_neg (fun hc => hnolt hc.2), hx, hv]
  exact ⟨rfl, rfl⟩

/-- If picking is active and a node (outside the wall column) ends the
integration and damping passes within `curser_radius` of a cursor that lies
on or right of the wall line, the rest of the substep snaps it to the cursor
with zero velocity. -/
theorem update_pick_snap (P : Params) (gr : ℕ → Vec2) (s : SimState) (i : ℕ)
    (hi : i < P.Nn) (hw : P.Ny ≤ i) (hpick : P.pick = true)
    (hcx : init_x ≤ P.cur.1)
    (hnear : norm2 ((integPass P gr s).x i - P.cur) < curser_radius) :
    (update P gr s).x i = P.cur ∧ (update P gr s).v i = (0, 0) := by
  unfold update
  set t := dampPass P (integPass P gr s) with ht
  have htx : t.x i = (integPass P gr s).x i := rfl
  have hcond : i < P.Nn ∧ P.pick = true ∧ norm2 (t.x i - P.cur) < curser_radius :=
    ⟨hi, hpick, by rw [htx]; exact hnear⟩
  have hpx : (pickPass P t).x i = P.cur := by
    unfold pickPass; dsimp only; rw [if_pos hcond]
  have hpv : (pickPass P t).v i = (0, 0) := by
    unfold pickPass; dsimp only; rw [if_pos hcond]
  have hwx : (wallPass P (pickPass P t)).x i = P.cur := by
    unfold wallPass; dsimp only; rw [if_neg (by omega), hpx]
  have hwv : (wallPass P (pickPass P t)).v i = (0, 0) := by
    unfold wallPass; dsimp only; rw [if_neg (by omega), hpv]
  have hnolt : ¬((wallPass P (pickPass P t)).x i).1 < init_x := by
    rw [hwx]; exact not_lt.mpr hcx
  unfold clampPass
  dsimp only
  rw [if_neg (fun hc => hnolt hc.2), if_neg (fun hc => hnolt hc.2), hwx, hwv]
  exact ⟨rfl, rfl⟩

/-! ### Frames of the driver loop -/

/-- The per-frame inputs the event loop feeds into a substep: the damping
toggle, the picking flag and cursor of the held pointer, and the current
`YoungsModulus` value (mutable via the `0`/`9` keys). -/
structure Frame where
  damp : Bool
  pick : Bool
  cur : Vec2
  Ymod : ℝ

/-- A run of consecutive substeps of the script under a sequence of inputs. -/
noncomputable def runC (s : SimState) (L : List Frame) : SimState :=
  L.foldl (fun s f => substepC f.damp f.pick f.cur f.Ymod s) s

/-- After any nonempty run of substeps, every wall node is pinned at its rest
pose with zero velocity. -/
theorem runC_pinned (L : List Frame) (s0 : SimState) (hL : L ≠ []) (j : ℕ)
    (hj : j < N_y) :
    (runC s0 L).x j = (init_x, init_y + (j : ℝ) * dx) ∧
      (runC s0 L).v j = (0, 0) := by
  induction L generalizing s0 with
  | nil => exact absurd rfl hL
  | cons f t ih =>
      rcases t with _ | ⟨f2, t2⟩
      · have := update_pins_wall (paramsC f.damp f.pick f.cur)
          (compute_gradient edgesC f.Ymod slC s0.x) s0 j hj
        exact this
      · exact ih (substepC f.damp f.pick f.cur f.Ymod s0) (by simp)

/-! ### Key handlers for the Young's modulus (source lines 186-191) -/

/-- Source line 189: the `0` key multiplies `YoungsModulus` by 1.1. -/
noncomputable def keyIncreaseY (st : FullState) : FullState :=
  { st with YoungsModulus := st.YoungsModulus * 1.1 }

/-- Source line 191: the `9` key divides `YoungsModulus` by 1.1. -/
noncomputable def keyDecreaseY (st : FullState) : FullState :=
  { st with YoungsModulus := st.YoungsModulus / 1.1 }

/-- A sequence of stiffness-key presses (`true` = `0` key, `false` = `9`
key). -/
noncomputable def applyYKeys (ks : List Bool) (st : FullState) : FullState :=
  ks.foldl (fun st b => if b then keyIncreaseY st else keyDecreaseY st) st

/-! ### Mode-3 integration is a no-op -/

theorem integNode_other (mode : ℕ) (grav : ℝ) (gri : Vec2) (xv : Vec2 × Vec2)
    (h1 : mode ≠ 1) (h2 : mode ≠ 2) : integNode mode grav gri xv = xv := by
  unfold integNode
  rw [if_neg h1, if_neg h2]

theorem integPass_mode3 (P : Params) (gr : ℕ → Vec2) (s : SimState) (hm : P.mode = 3) :
    integPass P gr s = s := by
  have hnode : ∀ i, integNode P.mode P.grav (gr i) (s.x i, s.v i) = (s.x i, s.v i) :=
    fun i => integNode_other _ _ _ _ (by omega) (by omega)
  have hx : (integPass P gr s).x = s.x := by
    funext i
    show (if i < P.Nn then (integNode P.mode P.grav (gr i) (s.x i, s.v i)).1 else s.x i) = s.x i
    rw [hnode i]
    exact ite_self _
  have hv : (integPass P gr s).v = s.v := by
    funext i
    show (if i < P.Nn then (integNode P.mode P.grav (gr i) (s.x i, s.v i)).2 else s.v i) = s.v i
    rw [hnode i]
    exact ite_self _
  cases s
  exact SimState.ext hx hv

/-! ### Shared concrete states for witnesses -/

/-- An all-zero simulation state. -/
noncomputable def zeroState : SimState :=
  ⟨fun _ => (0, 0), fun _ => (0, 0)⟩

/-- An all-zero full store. -/
noncomputable def zeroFull : FullState :=
  ⟨fun _ => (0, 0), fun _ => (0, 0), fun _ => 0, [], [], 0⟩

/-! ### Claims C2-C6, C8-C10 -/

/-- C2: for every number of substeps and every sequence of per-frame inputs
(damping toggled, picking active at any cursor position, any stiffness),
after each substep every column-0 node `ij_2_index(0, j)`, `j < N_y`, has
position exactly `(init_x, init_y + j*dx)` and velocity exactly zero. -/
theorem C2_wall_always_pinned (L : List Frame) (s0 : SimState) (hL : L ≠ [])
    (j : ℕ) (hj : j < N_y) :
    (runC s0 L).x (ij_2_index N_y 0 j) = (init_x, init_y + (j : ℝ) * dx) ∧
      (runC s0 L).v (ij_2_index N_y 0 j) = (0, 0) := by
  have hij : ij_2_index N_y 0 j = j := by simp [ij_2_index]
  rw [hij]
  exact runC_pinned L s0 hL j hj

theorem C2_witness :
    ([Frame.mk false false (0, 0) Y0] ≠ ([] : List Frame)) ∧ 0 < N_y ∧
      ((runC zeroState [Frame.mk false false (0, 0) Y0]).x (ij_2_index N_y 0 0) =
          (init_x, init_y + ((0 : ℕ) : ℝ) * dx) ∧
        (runC zeroState [Frame.mk false false (0, 0) Y0]).v (ij_2_index N_y 0 0) = (0, 0)) :=
  ⟨by simp, by norm_num [N_y],
    C2_wall_always_pinned _ zeroState (by simp) 0 (by norm_num [N_y])⟩

/-- C3: after the clamp pass that ends every substep, every node's
x-coordinate is at least `init_x`; and pointwise, the clamp rewrites an
offending node's x-coordinate to `init_x` and zeroes only the x-component of
its velocity, keeping both y-components, while leaving a non-offending node
completely unchanged. -/
theorem C3_clamp_invariant (P : Params) (gr : ℕ → Vec2) (s : SimState) (i : ℕ)
    (hi : i < P.Nn) :
    init_x ≤ ((update P gr s).x i).1 ∧
      ((s.x i).1 < init_x →
        (clampPass P s).x i = (init_x, (s.x i).2) ∧
        (clampPass P s).v i = (0, (s.v i).2)) ∧
      (¬(s.x i).1 < init_x →
        (clampPass P s).x i = s.x i ∧ (clampPass P s).v i = s.v i) := by
  refine ⟨?_, (clampPass_spec P s i hi).1, (clampPass_spec P s i hi).2⟩
  unfold update
  exact clampPass_ge P _ i hi

theorem C3_witness :
    0 < (Params.mk 2 0 false false (0, 0) 1 0).Nn ∧
      (init_x ≤
          ((update (Params.mk 2 0 false false (0, 0) 1 0) (fun _ => (0, 0)) zeroState).x 0).1 ∧
        ((zeroState.x 0).1 < init_x →
          (clampPass (Params.mk 2 0 false false (0, 0) 1 0) zeroState).x 0 =
              (init_x, (zeroState.x 0).2) ∧
            (clampPass (Params.mk 2 0 false false (0, 0) 1 0) zeroState).v 0 =
              (0, (zeroState.v 0).2)) ∧
        (¬(zeroState.x 0).1 < init_x →
          (clampPass (Params.mk 2 0 false false (0, 0) 1 0) zeroState).x 0 = zeroState.x 0 ∧
            (clampPass (Params.mk 2 0 false false (0, 0) 1 0) zeroState).v 0 = zeroState.v 0)) :=
  ⟨by norm_num, C3_clamp_invariant _ _ zeroState 0 (by norm_num)⟩

/-- C4: whenever every edge of the list is at its stored rest length (all
rest lengths positive), `compute_gradient` leaves every node's gradient equal
to the zero vector. -/
theorem C4_gradient_zero_at_rest (E : List (ℕ × ℕ)) (Y : ℝ) (sl : ℕ → ℝ)
    (x : ℕ → Vec2) (hpos : ∀ p ∈ E.enum, 0 < sl p.1)
    (hrest : ∀ p ∈ E.enum, norm2 (x p.2.1 - x p.2.2) = sl p.1) (i : ℕ) :
    compute_gradient E Y sl x i = (0, 0) := by
  rw [compute_gradient_rest E Y sl x hrest]

/-- A one-spring configuration sitting at rest length 1, for the C4 witness. -/
noncomputable def c4E : List (ℕ × ℕ) := [(0, 1)]

noncomputable def c4sl : ℕ → ℝ := fun _ => 1

noncomputable def c4x : ℕ → Vec2 := fun n => if n = 0 then (0, 0) else (1, 0)

theorem C4_witness :
    (∀ p ∈ c4E.enum, 0 < c4sl p.1) ∧
      (∀ p ∈ c4E.enum, norm2 (c4x p.2.1 - c4x p.2.2) = c4sl p.1) ∧
      compute_gradient c4E 1 c4sl c4x 0 = (0, 0) := by
  have hpos : ∀ p ∈ c4E.enum, 0 < c4sl p.1 := by
    intro p _
    norm_num [c4sl]
  have hrest : ∀ p ∈ c4E.enum, norm2 (c4x p.2.1 - c4x p.2.2) = c4sl p.1 := by
    intro p hp
    have henum : c4E.enum = [(0, (0, 1))] := rfl
    rw [henum, List.mem_singleton] at hp
    subst hp
    show norm2 (c4x 0 - c4x 1) = c4sl 0
    have h0 : c4x 0 = (0, 0) := rfl
    have h1 : c4x 1 = (1, 0) := rfl
    rw [h0, h1, Prod.mk_sub_mk, c4sl]
    norm_num [norm2_x0]
  exact ⟨hpos, hrest, C4_gradient_zero_at_rest c4E 1 c4sl c4x hpos hrest 0⟩

/-- C5: immediately after `initialize_springs` returns, every edge
`e = (a, b)` has `spring_length[e]` equal to the Euclidean norm of
`x[a] - x[b]` at the node positions current at call time. -/
theorem C5_rest_length_init (E : List (ℕ × ℕ)) (x : ℕ → Vec2) (e : ℕ)
    (he : e < E.length) :
    initialize_springs E x e =
      norm2 (x (E.getD e (0, 0)).1 - x (E.getD e (0, 0)).2) :=
  initialize_springs_eq E x e he

theorem C5_witness :
    0 < ([((0 : ℕ), (1 : ℕ))] : List (ℕ × ℕ)).length ∧
      initialize_springs [((0 : ℕ), (1 : ℕ))] (fun _ => ((0 : ℝ), (0 : ℝ))) 0 =
        norm2 ((fun _ => ((0 : ℝ), (0 : ℝ)))
              (([((0 : ℕ), (1 : ℕ))] : List (ℕ × ℕ)).getD 0 (0, 0)).1 -
            (fun _ => ((0 : ℝ), (0 : ℝ)))
              (([((0 : ℕ), (1 : ℕ))] : List (ℕ × ℕ)).getD 0 (0, 0)).2) :=
  ⟨by norm_num, C5_rest_length_init _ _ 0 (by norm_num)⟩

/-- C6: for all grid dimensions at least 2 x 2, `meshing` populates exactly
`(N_x-1)*N_y + N_x*(N_y-1) + (N_x-1)*(N_y-1)` edges and exactly
`2*(N_x-1)*(N_y-1)` triangles, and the edge array is the horizontal block
followed by the vertical block followed by the diagonal block. -/
theorem C6_mesh_counts (Nx Ny : ℕ) (hNx : 2 ≤ Nx) (hNy : 2 ≤ Ny) :
    (edgesOf Nx Ny).length = (Nx - 1) * Ny + Nx * (Ny - 1) + (Nx - 1) * (Ny - 1) ∧
      (trianglesOf Nx Ny).length = 2 * (Nx - 1) * (Ny - 1) ∧
      edgesOf Nx Ny = hEdgesOf Nx Ny ++ vEdgesOf Nx Ny ++ dEdgesOf Nx Ny ∧
      (∀ p ∈ hEdgesOf Nx Ny,
        ∃ i j, i + 1 < Nx ∧ j < Ny ∧ p = (ij_2_index Ny i j, ij_2_index Ny (i + 1) j)) ∧
      (∀ p ∈ vEdgesOf Nx Ny,
        ∃ i j, i < Nx ∧ j + 1 < Ny ∧ p = (ij_2_index Ny i j, ij_2_index Ny i (j + 1))) ∧
      (∀ p ∈ dEdgesOf Nx Ny,
        ∃ i j, i + 1 < Nx ∧ j + 1 < Ny ∧
          p = (ij_2_index Ny (i + 1) j, ij_2_index Ny i (j + 1))) :=
  ⟨edgesOf_length Nx Ny, trianglesOf_length Nx Ny, rfl,
    hEdgesOf_shape Nx Ny, vEdgesOf_shape Nx Ny, dEdgesOf_shape Nx Ny⟩

theorem C6_witness :
    2 ≤ 2 ∧ ((edgesOf 2 2).length = (2 - 1) * 2 + 2 * (2 - 1) + (2 - 1) * (2 - 1) ∧
      (trianglesOf 2 2).length = 2 * (2 - 1) * (2 - 1) ∧
      edgesOf 2 2 = hEdgesOf 2 2 ++ vEdgesOf 2 2 ++ dEdgesOf 2 2 ∧
      (∀ p ∈ hEdgesOf 2 2,
        ∃ i j, i + 1 < 2 ∧ j < 2 ∧ p = (ij_2_index 2 i j, ij_2_index 2 (i + 1) j)) ∧
      (∀ p ∈ vEdgesOf 2 2,
        ∃ i j, i < 2 ∧ j + 1 < 2 ∧ p = (ij_2_index 2 i j, ij_2_index 2 i (j + 1))) ∧
      (∀ p ∈ dEdgesOf 2 2,
        ∃ i j, i + 1 < 2 ∧ j + 1 < 2 ∧
          p = (ij_2_index 2 (i + 1) j, ij_2_index 2 i (j + 1)))) :=
  ⟨by norm_num, C6_mesh_counts 2 2 (by norm_num) (by norm_num)⟩

/-- C8: the `initialize` kernel (the `r`-key reset) puts every grid node back
at `(init_x + i*dx, init_y + j*dx)` with zero velocity while leaving the
`spring_length`, `edges`, and `triangles` arrays untouched (rest lengths are
not recomputed on reset). -/
theorem C8_reset_restores_grid (st : FullState) (i j : ℕ) (hi : i < N_x)
    (hj : j < N_y) :
    (initializeK st).x (ij_2_index N_y i j) =
        (init_x + (i : ℝ) * dx, init_y + (j : ℝ) * dx) ∧
      (initializeK st).v (ij_2_index N_y i j) = (0, 0) ∧
      (initializeK st).spring_length = st.spring_length ∧
      (initializeK st).edges = st.edges ∧
      (initializeK st).triangles = st.triangles := by
  have hlt : ij_2_index N_y i j < N := ij_lt_of_lt N_x N_y i j hi hj
  refine ⟨?_, ?_, rfl, rfl, rfl⟩
  · show (if ij_2_index N_y i j < N then gridPos N_y (ij_2_index N_y i j)
        else st.x (ij_2_index N_y i j)) = _
    rw [if_pos hlt, gridPos_ij N_y i j hj]
  · show (if ij_2_index N_y i j < N then ((0 : ℝ), (0 : ℝ))
        else st.v (ij_2_index N_y i j)) = _
    rw [if_pos hlt]

theorem C8_witness :
    0 < N_x ∧ 0 < N_y ∧
      ((initializeK zeroFull).x (ij_2_index N_y 0 0) =
          (init_x + ((0 : ℕ) : ℝ) * dx, init_y + ((0 : ℕ) : ℝ) * dx) ∧
        (initializeK zeroFull).v (ij_2_index N_y 0 0) = (0, 0) ∧
        (initializeK zeroFull).spring_length = zeroFull.spring_length ∧
        (initializeK zeroFull).edges = zeroFull.edges ∧
        (initializeK zeroFull).triangles = zeroFull.triangles) :=
  ⟨by norm_num [N_x], by norm_num [N_y],
    C8_reset_restores_grid zeroFull 0 0 (by norm_num [N_x]) (by norm_num [N_y])⟩

/-- C9: with the integration-mode flag at 3 (the named but unimplemented
implicit-Euler mode) a substep's `update` performs no velocity or position
integration: the state is changed only by the damping, picking, wall and
clamp passes, and (the embedding being total) no fault is raised. -/
theorem C9_mode3_no_integration (P : Params) (gr : ℕ → Vec2) (s : SimState)
    (hm : P.mode = 3) :
    update P gr s = clampPass P (wallPass P (pickPass P (dampPass P s))) := by
  unfold update
  rw [integPass_mode3 P gr s hm]

theorem C9_witness :
    (Params.mk 3 0 false false (0, 0) 1 0).mode = 3 ∧
      update (Params.mk 3 0 false false (0, 0) 1 0) (fun _ => (0, 0)) zeroState =
        clampPass (Params.mk 3 0 false false (0, 0) 1 0)
          (wallPass (Params.mk 3 0 false false (0, 0) 1 0)
            (pickPass (Params.mk 3 0 false false (0, 0) 1 0)
              (dampPass (Params.mk 3 0 false false (0, 0) 1 0) zeroState))) :=
  ⟨rfl, C9_mode3_no_integration _ _ zeroState rfl⟩

/-- C10: the `initialize` kernel (the `r`-key reset) unconditionally writes
`YoungsModulus = 3e4`, so stiffness changes accumulated through any sequence
of `0`/`9` key presses do not survive a reset. -/
theorem C10_reset_stiffness (ks : List Bool) (st : FullState) :
    (initializeK (applyYKeys ks st)).YoungsModulus = 3e4 := rfl

/-! ### Pointwise access lemmas for the passes -/

theorem integPass_x_pos (P : Params) (gr : ℕ → Vec2) (s : SimState) (i : ℕ)
    (hi : i < P.Nn) :
    (integPass P gr s).x i = (integNode P.mode P.grav (gr i) (s.x i, s.v i)).1 := by
  unfold integPass
  dsimp only
  rw [if_pos hi]

theorem integPass_v_pos (P : Params) (gr : ℕ → Vec2) (s : SimState) (i : ℕ)
    (hi : i < P.Nn) :
    (integPass P gr s).v i = (integNode P.mode P.grav (gr i) (s.x i, s.v i)).2 := by
  unfold integPass
  dsimp only
  rw [if_pos hi]

theorem dampPass_v_off (P : Params) (s : SimState) (hd : P.damp = false) (i : ℕ) :
    (dampPass P s).v i = s.v i := by
  unfold dampPass
  dsimp only
  rw [hd]
  simp only [Bool.false_eq_true, if_false, ite_self]

theorem pickPass_x_miss (P : Params) (s : SimState) (i : ℕ)
    (hno : ¬(i < P.Nn ∧ P.pick = true ∧ norm2 (s.x i - P.cur) < curser_radius)) :
    (pickPass P s).x i = s.x i := by
  unfold pickPass
  dsimp only
  rw [if_neg hno]

theorem pickPass_v_miss (P : Params) (s : SimState) (i : ℕ)
    (hno : ¬(i < P.Nn ∧ P.pick = true ∧ norm2 (s.x i - P.cur) < curser_radius)) :
    (pickPass P s).v i = s.v i := by
  unfold pickPass
  dsimp only
  rw [if_neg hno]

theorem wallPass_x_out (P : Params) (s : SimState) (i : ℕ) (hi : ¬i < P.Ny) :
    (wallPass P s).x i = s.x i := by
  unfold wallPass
  dsimp only
  rw [if_neg hi]

theorem wallPass_v_out (P : Params) (s : SimState) (i : ℕ) (hi : ¬i < P.Ny) :
    (wallPass P s).v i = s.v i := by
  unfold wallPass
  dsimp only
  rw [if_neg hi]

theorem clampPass_x_ok (P : Params) (s : SimState) (i : ℕ)
    (hok : ¬(s.x i).1 < init_x) :
    (clampPass P s).x i = s.x i := by
  unfold clampPass
  dsimp only
  rw [if_neg (fun hc => hok hc.2)]

theorem clampPass_v_ok (P : Params) (s : SimState) (i : ℕ)
    (hok : ¬(s.x i).1 < init_x) :
    (clampPass P s).v i = s.v i := by
  unfold clampPass
  dsimp only
  rw [if_neg (fun hc => hok hc.2)]

/-- Componentwise form of one symplectic (mode 2) node update:
`v1 = v + dh*acc`, `x1 = x + dh*v1`. -/
theorem integNode_two (grav : ℝ) (gri : Vec2) (xv : Vec2 × Vec2) :
    integNode 2 grav gri xv =
      ((xv.1.1 + dh * (xv.2.1 + dh * (-gri.1 / m - 0)),
        xv.1.2 + dh * (xv.2.2 + dh * (-gri.2 / m - grav))),
       (xv.2.1 + dh * (-gri.1 / m - 0),
        xv.2.2 + dh * (-gri.2 / m - grav))) := by
  unfold integNode acc svec
  norm_num [Prod.ext_iff, Prod.fst_add, Prod.snd_add]

/-- Componentwise form of one explicit-Euler (mode 1) node update:
`x1 = x + dh*v` (pre-update velocity), `v1 = v + dh*acc`. -/
theorem integNode_one (grav : ℝ) (gri : Vec2) (xv : Vec2 × Vec2) :
    integNode 1 grav gri xv =
      ((xv.1.1 + dh * xv.2.1, xv.1.2 + dh * xv.2.2),
       (xv.2.1 + dh * (-gri.1 / m - 0),
        xv.2.2 + dh * (-gri.2 / m - grav))) := by
  unfold integNode acc svec
  norm_num [Prod.ext_iff, Prod.fst_add, Prod.snd_add]

/-! ### Claim C1: the pick constraint -/

/-- The gradient of the script's startup configuration is the zero field:
the rest lengths were just computed from these very positions. -/
theorem gradC_rest (Y : ℝ) : compute_gradient edgesC Y slC x0C = fun _ => (0, 0) :=
  compute_gradient_after_init edgesC Y x0C

/-- Node `(1, 0)` of the grid: the first non-wall node, index 4. -/
def c1node : ℕ := ij_2_index N_y 1 0

/-- A cursor placed exactly at node `(1, 0)`'s rest position. -/
noncomputable def c1Cursor : Vec2 := (init_x + dx, init_y)

/-- The startup configuration, except that node `(1, 0)` is given a huge
upward velocity. -/
noncomputable def c1State : SimState :=
  ⟨x0C, fun i => if i = c1node then (0, 1000000) else (0, 0)⟩

theorem x0C_c1node : x0C c1node = (init_x + dx, init_y) := by
  show initNodes N_x N_y (ij_2_index N_y 1 0) = _
  rw [initNodes_ij N_x N_y 1 0 (by norm_num [N_x]) (by norm_num [N_y])]
  norm_num

theorem c1node_lt_N : c1node < N := by
  norm_num [c1node, ij_2_index, N, N_x, N_y]

/-- The pick radius is far smaller than the distance node `(1, 0)` travels
in one substep at vertical speed `1000000`. -/
theorem c1_dist_large : curser_radius ≤ dh * 1000000 - dh * (dh * g) := by
  norm_num [curser_radius, dx, dh, h, substepping, g]

/-- Full evaluation of the substep of the C1 scenario at node `(1, 0)`:
after integration the node is far above the cursor, so the pick test fails
and the node keeps its integrated position. -/
theorem c1_eval :
    (substepC false true c1Cursor Y0 c1State).x c1node =
      (init_x + dx, init_y + dh * 1000000 - dh * (dh * g)) := by
  have hgr : compute_gradient edgesC Y0 slC c1State.x = fun _ => (0, 0) := gradC_rest Y0
  set P := paramsC false true c1Cursor with hP
  set gr := compute_gradient edgesC Y0 slC c1State.x with hgrdef
  have hnn : c1node < P.Nn := c1node_lt_N
  have hgi : gr c1node = (0, 0) := by rw [hgr]
  have hx0 : c1State.x c1node = (init_x + dx, init_y) := x0C_c1node
  have hv0 : c1State.v c1node = (0, 1000000) := by simp [c1State]
  have hmode : P.mode = 2 := rfl
  have hgrav : P.grav = g := rfl
  have hint : (integPass P gr c1State).x c1node =
      (init_x + dx, init_y + dh * 1000000 - dh * (dh * g)) := by
    rw [integPass_x_pos P gr c1State c1node hnn, hmode, hgrav, hgi, integNode_two, hx0, hv0]
    dsimp only
    rw [Prod.mk.injEq]
    constructor <;> · rw [m]; ring
  show (clampPass P (wallPass P (pickPass P (dampPass P (integPass P gr c1State))))).x
      c1node = _
  have hdx : (dampPass P (integPass P gr c1State)).x c1node =
      (init_x + dx, init_y + dh * 1000000 - dh * (dh * g)) := hint
  have hmiss : ¬(c1node < P.Nn ∧ P.pick = true ∧
      norm2 ((dampPass P (integPass P gr c1State)).x c1node - P.cur) < curser_radius) := by
    intro hc
    have hd := hc.2.2
    rw [hdx] at hd
    have hcur : P.cur = (init_x + dx, init_y) := rfl
    rw [hcur, Prod.mk_sub_mk] at hd
    rw [show init_x + dx - (init_x + dx) = (0 : ℝ) by ring] at hd
    rw [show init_y + dh * 1000000 - dh * (dh * g) - init_y =
      dh * 1000000 - dh * (dh * g) by ring] at hd
    rw [norm2_0y] at hd
    have habs : dh * 1000000 - dh * (dh * g) ≤
        |dh * 1000000 - dh * (dh * g)| := le_abs_self _
    exact lt_irrefl _ (lt_of_le_of_lt (le_trans c1_dist_large habs) hd)
  have hpx : (pickPass P (dampPass P (integPass P gr c1State))).x c1node =
      (init_x + dx, init_y + dh * 1000000 - dh * (dh * g)) := by
    rw [pickPass_x_miss _ _ _ hmiss, hdx]
  have hwall : ¬c1node < P.Ny := by
    rw [show P.Ny = N_y from rfl]
    norm_num [c1node, ij_2_index, N_y]
  have hwx : (wallPass P (pickPass P (dampPass P (integPass P gr c1State)))).x c1node =
      (init_x + dx, init_y + dh * 1000000 - dh * (dh * g)) := by
    rw [wallPass_x_out _ _ _ hwall, hpx]
  have hnoclamp : ¬((wallPass P (pickPass P (dampPass P (integPass P gr c1State)))).x
      c1node).1 < init_x := by
    rw [hwx]
    show ¬init_x + dx < init_x
    norm_num [dx]
  rw [clampPass_x_ok _ _ _ hnoclamp, hwx]

/-- C1 is false as stated: in the C1 scenario the cursor sits exactly at node
`(1, 0)`'s position with picking active, yet after one substep the node's
position differs from the cursor (its huge prior velocity carried it out of
the pick radius before the pick test ran). -/
theorem C1_counterexample :
    c1State.x c1node = c1Cursor ∧
      ¬((substepC false true c1Cursor Y0 c1State).x c1node = c1Cursor ∧
        (substepC false true c1Cursor Y0 c1State).v c1node = (0, 0)) := by
  constructor
  · exact x0C_c1node
  · intro hcon
    have hx := hcon.1
    rw [c1_eval] at hx
    have h2 := congrArg Prod.snd hx
    have hcur2 : (c1Cursor).2 = init_y := rfl
    rw [hcur2] at h2
    simp only at h2
    have hδ : dh * 1000000 - dh * (dh * g) = 0 := by linarith
    norm_num [dh, h, substepping, g] at hδ

/-- C1 (amended): with picking active, any node outside the wall column whose
position *after the integration and damping passes* lies within
`curser_radius` of the cursor — in particular a node at the cursor with small
prior velocity — is snapped to the cursor with zero velocity, provided the
cursor is not left of the wall line (else the clamp would rewrite it). -/
theorem C1_pick_snaps (dampB : Bool) (cur : Vec2) (Ymod : ℝ) (s : SimState) (i : ℕ)
    (hi : i < N) (hw : N_y ≤ i) (hcx : init_x ≤ cur.1)
    (hnear : norm2 ((integPass (paramsC dampB true cur)
        (compute_gradient edgesC Ymod slC s.x) s).x i - cur) < curser_radius) :
    (substepC dampB true cur Ymod s).x i = cur ∧
      (substepC dampB true cur Ymod s).v i = (0, 0) :=
  update_pick_snap (paramsC dampB true cur) _ s i hi hw rfl hcx hnear

/-- The startup state: grid positions, zero velocity. -/
noncomputable def restState : SimState := ⟨x0C, fun _ => (0, 0)⟩

theorem C1_witness :
    c1node < N ∧ N_y ≤ c1node ∧ init_x ≤ (c1Cursor).1 ∧
      norm2 ((integPass (paramsC false true c1Cursor)
          (compute_gradient edgesC Y0 slC restState.x) restState).x c1node -
        c1Cursor) < curser_radius ∧
      ((substepC false true c1Cursor Y0 restState).x c1node = c1Cursor ∧
        (substepC false true c1Cursor Y0 restState).v c1node = (0, 0)) := by
  have hgr : compute_gradient edgesC Y0 slC restState.x = fun _ => (0, 0) := gradC_rest Y0
  have hi : c1node < N := c1node_lt_N
  have hw : N_y ≤ c1node := by norm_num [c1node, ij_2_index, N_y]
  have hcx : init_x ≤ (c1Cursor).1 := by
    show init_x ≤ init_x + dx
    norm_num [dx]
  have hnn : c1node < (paramsC false true c1Cursor).Nn := hi
  have hgi : compute_gradient edgesC Y0 slC restState.x c1node = (0, 0) := by rw [hgr]
  have hx0 : restState.x c1node = (init_x + dx, init_y) := x0C_c1node
  have hv0 : restState.v c1node = ((0 : ℝ), (0 : ℝ)) := rfl
  have hgrav : (paramsC false true c1Cursor).grav = g := rfl
  have hnear : norm2 ((integPass (paramsC false true c1Cursor)
      (compute_gradient edgesC Y0 slC restState.x) restState).x c1node -
        c1Cursor) < curser_radius := by
    rw [integPass_x_pos _ _ restState c1node hnn]
    rw [show (paramsC false true c1Cursor).mode = 2 from rfl, hgrav, hgi, integNode_two,
      hx0, hv0]
    dsimp only
    rw [show c1Cursor = (init_x + dx, init_y) from rfl, Prod.mk_sub_mk]
    rw [show init_x + dx + dh * (0 + dh * (-0 / m - 0)) - (init_x + dx) = (0 : ℝ) by
      rw [m]; ring]
    rw [show init_y + dh * (0 + dh * (-0 / m - g)) - init_y = -(dh * (dh * g)) by
      rw [m]; ring]
    rw [norm2_0y, abs_neg, abs_of_nonneg (by norm_num [dh, h, substepping, g])]
    norm_num [dh, h, substepping, g, curser_radius, dx]
  exact ⟨hi, hw, hcx, hnear, C1_pick_snaps false c1Cursor Y0 restState c1node hi hw hcx hnear⟩

/-! ### Claim C7: the 2-node, 1-spring stability scenario

The spec's test configuration: grid `2 x 1` (two nodes, one horizontal
spring — node 0 in the wall column, node 1 free), zero gravity, damping off,
picking off, default stiffness and step size, released from a stretched
state.  The scenario is expressed with the script's own kernels at grid
parameters `Nn = 2`, `Ny = 1` and gravity parameter `0`. -/

/-- The edge array of the 2 x 1 grid: the single spring `(0, 1)`. -/
def edges7 : List (ℕ × ℕ) := edgesOf 2 1

theorem edges7_eq : edges7 = [(0, 1)] := by decide

/-- Node positions of the 2 x 1 grid right after `initialize`. -/
noncomputable def x07 : ℕ → Vec2 := initNodes 2 1

/-- Rest lengths of the 2 x 1 grid right after `initialize_springs`. -/
noncomputable def sl7 : ℕ → ℝ := initialize_springs edges7 x07

/-- The per-edge stiffness `k = YoungsModulus / l0` of the single spring. -/
noncomputable def kC : ℝ := Y0 / dx

theorem x07_0 : x07 0 = (init_x, init_y) := by
  show (if (0 : ℕ) < 2 * 1 then gridPos 1 0 else (0, 0)) = _
  rw [if_pos (by norm_num)]
  show (init_x + ((0 / 1 : ℕ) : ℝ) * dx, init_y + ((0 % 1 : ℕ) : ℝ) * dx) = _
  norm_num

theorem x07_1 : x07 1 = (init_x + dx, init_y) := by
  show (if (1 : ℕ) < 2 * 1 then gridPos 1 1 else (0, 0)) = _
  rw [if_pos (by norm_num)]
  show (init_x + ((1 / 1 : ℕ) : ℝ) * dx, init_y + ((1 % 1 : ℕ) : ℝ) * dx) = _
  norm_num

theorem sl7_0 : sl7 0 = dx := by
  show initialize_springs edges7 x07 0 = dx
  rw [edges7_eq, initialize_springs_eq [(0, 1)] x07 0 (by norm_num)]
  show norm2 (x07 0 - x07 1) = dx
  rw [x07_0, x07_1, Prod.mk_sub_mk]
  rw [show init_x - (init_x + dx) = -dx by ring, show init_y - init_y = (0 : ℝ) by ring]
  rw [norm2_x0, abs_neg, abs_of_nonneg (by norm_num [dx])]

/-- The `update` parameters of the C7 scenario: the chosen integration mode,
zero gravity, damping and picking off, two nodes, wall column of height 1. -/
noncomputable def params7 (mode : ℕ) : Params :=
  ⟨mode, 0, false, false, (0, 0), 2, 1⟩

/-- A C7 state in reduced coordinates: node 0 at its rest pose, node 1 at
horizontal stretch `su.1` beyond rest length with horizontal velocity
`su.2`; all motion is along the x-axis. -/
noncomputable def shape7 (su : ℝ × ℝ) : SimState :=
  ⟨fun i => if i = 0 then (init_x, init_y)
    else if i = 1 then (init_x + dx + su.1, init_y) else (0, 0),
   fun i => if i = 1 then (su.2, 0) else (0, 0)⟩

/-- The state after the left clamp has fired on node 1: both nodes coincide
at the wall anchor with zero velocity. -/
noncomputable def clamped7 : SimState :=
  ⟨fun i => if i = 0 then (init_x, init_y)
    else if i = 1 then (init_x, init_y) else (0, 0),
   fun _ => (0, 0)⟩

/-! #### Passes with picking and damping off -/

theorem pickPass_off (P : Params) (s : SimState) (hp : P.pick = false) :
    pickPass P s = s := by
  have hno : ∀ i, ¬(i < P.Nn ∧ P.pick = true ∧
      norm2 (s.x i - P.cur) < curser_radius) := by
    intro i hc
    rw [hp] at hc
    exact Bool.false_ne_true hc.2.1
  cases s
  exact SimState.ext (funext fun i => pickPass_x_miss _ _ i (hno i))
    (funext fun i => pickPass_v_miss _ _ i (hno i))

theorem dampPass_off (P : Params) (s : SimState) (hd : P.damp = false) :
    dampPass P s = s := by
  cases s
  exact SimState.ext rfl (funext fun i => dampPass_v_off _ _ hd i)

/-- With picking and damping off, `update` is integration followed by the
wall and clamp passes. -/
theorem update_nopickdamp (P : Params) (gr : ℕ → Vec2) (s : SimState)
    (hd : P.damp = false) (hp : P.pick = false) :
    update P gr s = clampPass P (wallPass P (integPass P gr s)) := by
  unfold update
  rw [dampPass_off P _ hd, pickPass_off P _ hp]

/-! #### Nodewise results of a C7 update -/

theorem update7_node0 (mode : ℕ) (gr : ℕ → Vec2) (s : SimState) :
    (update (params7 mode) gr s).x 0 = (init_x, init_y) ∧
      (update (params7 mode) gr s).v 0 = (0, 0) := by
  rw [update_nopickdamp _ _ _ rfl rfl]
  set t := integPass (params7 mode) gr s with ht
  have hx : (wallPass (params7 mode) t).x 0 = (init_x, init_y) := by
    unfold wallPass
    dsimp only
    rw [if_pos (by norm_num [params7])]
    rw [Prod.mk.injEq]
    norm_num
  have hv : (wallPass (params7 mode) t).v 0 = (0, 0) := by
    unfold wallPass
    dsimp only
    rw [if_pos (by norm_num [params7])]
  have hok : ¬((wallPass (params7 mode) t).x 0).1 < init_x := by
    rw [hx]
    exact lt_irrefl _
  rw [clampPass_x_ok _ _ _ hok, clampPass_v_ok _ _ _ hok, hx, hv]
  exact ⟨rfl, rfl⟩

theorem update7_node_hi (mode : ℕ) (gr : ℕ → Vec2) (s : SimState) (i : ℕ)
    (hi : 2 ≤ i) :
    (update (params7 mode) gr s).x i = s.x i ∧
      (update (params7 mode) gr s).v i = s.v i := by
  rw [update_nopickdamp _ _ _ rfl rfl]
  have hnn : ¬i < (params7 mode).Nn := by
    rw [show (params7 mode).Nn = 2 from rfl]
    omega
  have hny : ¬i < (params7 mode).Ny := by
    rw [show (params7 mode).Ny = 1 from rfl]
    omega
  have hintx : (integPass (params7 mode) gr s).x i = s.x i := by
    unfold integPass
    dsimp only
    rw [if_neg hnn]
  have hintv : (integPass (params7 mode) gr s).v i = s.v i := by
    unfold integPass
    dsimp only
    rw [if_neg hnn]
  have hwx : (wallPass (params7 mode) (integPass (params7 mode) gr s)).x i = s.x i := by
    rw [wallPass_x_out _ _ _ hny, hintx]
  have hwv : (wallPass (params7 mode) (integPass (params7 mode) gr s)).v i = s.v i := by
    rw [wallPass_v_out _ _ _ hny, hintv]
  constructor
  · show (clampPass _ _).x i = s.x i
    unfold clampPass
    dsimp only
    rw [if_neg (fun hc => hnn hc.1), hwx]
  · show (clampPass _ _).v i = s.v i
    unfold clampPass
    dsimp only
    rw [if_neg (fun hc => hnn hc.1), hwv]

theorem update7_node1_noclamp (mode : ℕ) (gr : ℕ → Vec2) (s : SimState)
    (hge : init_x ≤ ((integPass (params7 mode) gr s).x 1).1) :
    (update (params7 mode) gr s).x 1 = (integPass (params7 mode) gr s).x 1 ∧
      (update (params7 mode) gr s).v 1 = (integPass (params7 mode) gr s).v 1 := by
  rw [update_nopickdamp _ _ _ rfl rfl]
  have hny : ¬(1 : ℕ) < (params7 mode).Ny := by
    rw [show (params7 mode).Ny = 1 from rfl]
    omega
  have hwx : (wallPass (params7 mode) (integPass (params7 mode) gr s)).x 1 =
      (integPass (params7 mode) gr s).x 1 := wallPass_x_out _ _ _ hny
  have hwv : (wallPass (params7 mode) (integPass (params7 mode) gr s)).v 1 =
      (integPass (params7 mode) gr s).v 1 := wallPass_v_out _ _ _ hny
  have hok : ¬((wallPass (params7 mode) (integPass (params7 mode) gr s)).x 1).1 <
      init_x := by
    rw [hwx]
    exact not_lt.mpr hge
  rw [clampPass_x_ok _ _ _ hok, clampPass_v_ok _ _ _ hok, hwx, hwv]
  exact ⟨rfl, rfl⟩

theorem update7_node1_clamp (mode : ℕ) (gr : ℕ → Vec2) (s : SimState)
    (hlt : ((integPass (params7 mode) gr s).x 1).1 < init_x) :
    (update (params7 mode) gr s).x 1 =
        (init_x, ((integPass (params7 mode) gr s).x 1).2) ∧
      (update (params7 mode) gr s).v 1 =
        (0, ((integPass (params7 mode) gr s).v 1).2) := by
  rw [update_nopickdamp _ _ _ rfl rfl]
  have hny : ¬(1 : ℕ) < (params7 mode).Ny := by
    rw [show (params7 mode).Ny = 1 from rfl]
    omega
  have hwx : (wallPass (params7 mode) (integPass (params7 mode) gr s)).x 1 =
      (integPass (params7 mode) gr s).x 1 := wallPass_x_out _ _ _ hny
  have hwv : (wallPass (params7 mode) (integPass (params7 mode) gr s)).v 1 =
      (integPass (params7 mode) gr s).v 1 := wallPass_v_out _ _ _ hny
  have hcond : (1 : ℕ) < (params7 mode).Nn ∧
      ((wallPass (params7 mode) (integPass (params7 mode) gr s)).x 1).1 < init_x := by
    refine ⟨by rw [show (params7 mode).Nn = 2 from rfl]; omega, ?_⟩
    rw [hwx]
    exact hlt
  constructor
  · show (clampPass _ _).x 1 = _
    unfold clampPass
    dsimp only
    rw [if_pos hcond, hwx]
  · show (clampPass _ _).v 1 = _
    unfold clampPass
    dsimp only
    rw [if_pos hcond, hwv]

/-! #### Reduced dynamics of the C7 scenario

With node 0 pinned and all motion horizontal, one substep acts on the
reduced coordinates `(s, u)` (stretch beyond rest length, x-velocity of node
1).  `stepE`/`stepS` are the explicit/symplectic maps read off the `update`
kernel; the bridge lemmas below prove the correspondence. -/

/-- Explicit Euler (mode 1) on the reduced coordinates: position first with
the old velocity, then velocity from the gradient at the pre-substep
positions. -/
noncomputable def stepE (su : ℝ × ℝ) : ℝ × ℝ :=
  (su.1 + dh * su.2, su.2 - dh * (kC * su.1))

/-- Symplectic Euler (mode 2) on the reduced coordinates: velocity first,
then position with the new velocity. -/
noncomputable def stepS (su : ℝ × ℝ) : ℝ × ℝ :=
  (su.1 + dh * (su.2 - dh * (kC * su.1)), su.2 - dh * (kC * su.1))

/-- The C7 initial stretch: a quarter of the rest length, released at rest. -/
noncomputable def su0 : ℝ × ℝ := (dx / 4, 0)

/-- Reduced explicit-Euler trajectory. -/
noncomputable def seqE : ℕ → ℝ × ℝ := fun n => Nat.rec su0 (fun _ su => stepE su) n

/-- Reduced symplectic-Euler trajectory. -/
noncomputable def seqS : ℕ → ℝ × ℝ := fun n => Nat.rec su0 (fun _ su => stepS su) n

theorem seqE_succ (n : ℕ) : seqE (n + 1) = stepE (seqE n) := rfl

theorem seqS_succ (n : ℕ) : seqS (n + 1) = stepS (seqS n) := rfl

/-- Value of `compute_gradient` at node 1 for the singleton edge list. -/
theorem compute_gradient_pair (Y : ℝ) (sl : ℕ → ℝ) (x : ℕ → Vec2) :
    compute_gradient [(0, 1)] Y sl x 1 = -springGrad Y sl x 0 (0, 1) := by
  unfold compute_gradient
  rw [show ([((0 : ℕ), (1 : ℕ))] : List (ℕ × ℕ)).enum = [(0, (0, 1))] from rfl]
  rw [List.foldl_cons, List.foldl_nil]
  dsimp only
  rw [Function.update_same, Function.update_noteq (by norm_num : (1 : ℕ) ≠ 0)]
  rw [Prod.mk_zero_zero, zero_sub]

/-- The per-edge gradient of the C7 spring at stretch `s` is `(-k*s, 0)`
(node 0 side), provided the spring length `dx + s` is positive. -/
theorem springGrad7 (su : ℝ × ℝ) (hq : 0 < dx + su.1) :
    springGrad Y0 sl7 (shape7 su).x 0 (0, 1) = (-(kC * su.1), 0) := by
  have hne : dx + su.1 ≠ 0 := ne_of_gt hq
  simp only [springGrad]
  rw [show (shape7 su).x 0 = (init_x, init_y) from rfl,
    show (shape7 su).x 1 = (init_x + dx + su.1, init_y) from rfl, Prod.mk_sub_mk]
  rw [show init_x - (init_x + dx + su.1) = -(dx + su.1) by ring,
    show init_y - init_y = (0 : ℝ) by ring]
  rw [norm2_x0, abs_neg, abs_of_pos hq, sl7_0]
  rw [Prod.mk.injEq]
  constructor
  · rw [show dx + su.1 - dx = su.1 by ring, mul_div_assoc, neg_div, div_self hne, kC]
    ring
  · rw [mul_zero, zero_div]

theorem grad7_1 (su : ℝ × ℝ) (hq : 0 < dx + su.1) :
    compute_gradient edges7 Y0 sl7 (shape7 su).x 1 = (kC * su.1, 0) := by
  rw [edges7_eq, compute_gradient_pair, springGrad7 su hq, Prod.neg_mk]
  norm_num

/-- Explicit-mode integration result at node 1 of a C7 shape. -/
theorem integ7_node1_exp (su : ℝ × ℝ) (hq : 0 < dx + su.1) :
    (integPass (params7 1) (compute_gradient edges7 Y0 sl7 (shape7 su).x)
        (shape7 su)).x 1 = (init_x + dx + (stepE su).1, init_y) ∧
      (integPass (params7 1) (compute_gradient edges7 Y0 sl7 (shape7 su).x)
        (shape7 su)).v 1 = ((stepE su).2, 0) := by
  have hg := grad7_1 su hq
  have h1 : (1 : ℕ) < (params7 1).Nn := by
    rw [show (params7 1).Nn = 2 from rfl]
    omega
  constructor
  · rw [integPass_x_pos _ _ _ _ h1, show (params7 1).mode = 1 from rfl,
      show (params7 1).grav = (0 : ℝ) from rfl, hg, integNode_one,
      show (shape7 su).x 1 = (init_x + dx + su.1, init_y) from rfl,
      show (shape7 su).v 1 = (su.2, 0) from rfl]
    dsimp only
    rw [Prod.mk.injEq]
    constructor
    · show init_x + dx + su.1 + dh * su.2 = init_x + dx + (su.1 + dh * su.2)
      ring
    · show init_y + dh * 0 = init_y
      ring
  · rw [integPass_v_pos _ _ _ _ h1, show (params7 1).mode = 1 from rfl,
      show (params7 1).grav = (0 : ℝ) from rfl, hg, integNode_one,
      show (shape7 su).x 1 = (init_x + dx + su.1, init_y) from rfl,
      show (shape7 su).v 1 = (su.2, 0) from rfl]
    dsimp only
    rw [Prod.mk.injEq]
    constructor
    · show su.2 + dh * (-(kC * su.1) / m - 0) = su.2 - dh * (kC * su.1)
      rw [m]
      ring
    · show 0 + dh * (-0 / m - 0) = (0 : ℝ)
      rw [m]
      ring

/-- Symplectic-mode integration result at node 1 of a C7 shape. -/
theorem integ7_node1_sym (su : ℝ × ℝ) (hq : 0 < dx + su.1) :
    (integPass (params7 2) (compute_gradient edges7 Y0 sl7 (shape7 su).x)
        (shape7 su)).x 1 = (init_x + dx + (stepS su).1, init_y) ∧
      (integPass (params7 2) (compute_gradient edges7 Y0 sl7 (shape7 su).x)
        (shape7 su)).v 1 = ((stepS su).2, 0) := by
  have hg := grad7_1 su hq
  have h1 : (1 : ℕ) < (params7 2).Nn := by
    rw [show (params7 2).Nn = 2 from rfl]
    omega
  constructor
  · rw [integPass_x_pos _ _ _ _ h1, show (params7 2).mode = 2 from rfl,
      show (params7 2).grav = (0 : ℝ) from rfl, hg, integNode_two,
      show (shape7 su).x 1 = (init_x + dx + su.1, init_y) from rfl,
      show (shape7 su).v 1 = (su.2, 0) from rfl]
    dsimp only
    rw [Prod.mk.injEq]
    constructor
    · show init_x + dx + su.1 + dh * (su.2 + dh * (-(kC * su.1) / m - 0)) =
        init_x + dx + (su.1 + dh * (su.2 - dh * (kC * su.1)))
      rw [m]
      ring
    · show init_y + dh * (0 + dh * (-0 / m - 0)) = init_y
      rw [m]
      ring
  · rw [integPass_v_pos _ _ _ _ h1, show (params7 2).mode = 2 from rfl,
      show (params7 2).grav = (0 : ℝ) from rfl, hg, integNode_two,
      show (shape7 su).x 1 = (init_x + dx + su.1, init_y) from rfl,
      show (shape7 su).v 1 = (su.2, 0) from rfl]
    dsimp only
    rw [Prod.mk.injEq]
    constructor
    · show su.2 + dh * (-(kC * su.1) / m - 0) = su.2 - dh * (kC * su.1)
      rw [m]
      ring
    · show 0 + dh * (-0 / m - 0) = (0 : ℝ)
      rw [m]
      ring

/-- One explicit-mode substep of a C7 shape with positive spring length and
no clamp event is exactly `stepE` on the reduced coordinates. -/
theorem substep7_exp (su : ℝ × ℝ) (hq : 0 < dx + su.1)
    (hq' : 0 ≤ dx + (stepE su).1) :
    substep (params7 1) edges7 Y0 sl7 (shape7 su) = shape7 (stepE su) := by
  have hint := integ7_node1_exp su hq
  show update (params7 1) (compute_gradient edges7 Y0 sl7 (shape7 su).x)
      (shape7 su) = _
  set gr := compute_gradient edges7 Y0 sl7 (shape7 su).x with hgr
  have hge : init_x ≤ ((integPass (params7 1) gr (shape7 su)).x 1).1 := by
    rw [hint.1]
    show init_x ≤ init_x + dx + (stepE su).1
    linarith
  have hn1 := update7_node1_noclamp 1 gr (shape7 su) hge
  have hn0 := update7_node0 1 gr (shape7 su)
  refine SimState.ext (funext fun i => ?_) (funext fun i => ?_)
  · match i with
    | 0 => exact hn0.1
    | 1 => rw [hn1.1, hint.1]; rfl
    | (i + 2) => exact (update7_node_hi 1 gr (shape7 su) (i + 2) (by omega)).1
  · match i with
    | 0 => exact hn0.2
    | 1 => rw [hn1.2, hint.2]; rfl
    | (i + 2) => exact (update7_node_hi 1 gr (shape7 su) (i + 2) (by omega)).2

/-- One symplectic-mode substep of a C7 shape with positive spring length and
no clamp event is exactly `stepS` on the reduced coordinates. -/
theorem substep7_sym (su : ℝ × ℝ) (hq : 0 < dx + su.1)
    (hq' : 0 ≤ dx + (stepS su).1) :
    substep (params7 2) edges7 Y0 sl7 (shape7 su) = shape7 (stepS su) := by
  have hint := integ7_node1_sym su hq
  show update (params7 2) (compute_gradient edges7 Y0 sl7 (shape7 su).x)
      (shape7 su) = _
  set gr := compute_gradient edges7 Y0 sl7 (shape7 su).x with hgr
  have hge : init_x ≤ ((integPass (params7 2) gr (shape7 su)).x 1).1 := by
    rw [hint.1]
    show init_x ≤ init_x + dx + (stepS su).1
    linarith
  have hn1 := update7_node1_noclamp 2 gr (shape7 su) hge
  have hn0 := update7_node0 2 gr (shape7 su)
  refine SimState.ext (funext fun i => ?_) (funext fun i => ?_)
  · match i with
    | 0 => exact hn0.1
    | 1 => rw [hn1.1, hint.1]; rfl
    | (i + 2) => exact (update7_node_hi 2 gr (shape7 su) (i + 2) (by omega)).1
  · match i with
    | 0 => exact hn0.2
    | 1 => rw [hn1.2, hint.2]; rfl
    | (i + 2) => exact (update7_node_hi 2 gr (shape7 su) (i + 2) (by omega)).2

/-- The explicit-mode substep in which node 1 crosses the wall line: the
clamp fires and leaves both nodes coincident at the anchor with zero
velocity. -/
theorem substep7_exp_clamp (su : ℝ × ℝ) (hq : 0 < dx + su.1)
    (hneg : dx + (stepE su).1 < 0) :
    substep (params7 1) edges7 Y0 sl7 (shape7 su) = clamped7 := by
  have hint := integ7_node1_exp su hq
  show update (params7 1) (compute_gradient edges7 Y0 sl7 (shape7 su).x)
      (shape7 su) = _
  set gr := compute_gradient edges7 Y0 sl7 (shape7 su).x with hgr
  have hlt : ((integPass (params7 1) gr (shape7 su)).x 1).1 < init_x := by
    rw [hint.1]
    show init_x + dx + (stepE su).1 < init_x
    linarith
  have hn1 := update7_node1_clamp 1 gr (shape7 su) hlt
  have hn0 := update7_node0 1 gr (shape7 su)
  refine SimState.ext (funext fun i => ?_) (funext fun i => ?_)
  · match i with
    | 0 => exact hn0.1
    | 1 =>
        rw [hn1.1, hint.1]
        rfl
    | (i + 2) => exact (update7_node_hi 1 gr (shape7 su) (i + 2) (by omega)).1
  · match i with
    | 0 => exact hn0.2
    | 1 =>
        rw [hn1.2, hint.2]
        rfl
    | (i + 2) => exact (update7_node_hi 1 gr (shape7 su) (i + 2) (by omega)).2

/-- The explicit-mode trajectory of the C7 scenario under the script's
substep. -/
noncomputable def stE : ℕ → SimState :=
  fun n => Nat.rec (shape7 su0) (fun _ s => substep (params7 1) edges7 Y0 sl7 s) n

/-- The symplectic-mode trajectory of the C7 scenario under the script's
substep. -/
noncomputable def stS : ℕ → SimState :=
  fun n => Nat.rec (shape7 su0) (fun _ s => substep (params7 2) edges7 Y0 sl7 s) n

theorem stE_succ (n : ℕ) : stE (n + 1) = substep (params7 1) edges7 Y0 sl7 (stE n) := rfl

theorem stS_succ (n : ℕ) : stS (n + 1) = substep (params7 2) edges7 Y0 sl7 (stS n) := rfl

/-! #### Total mechanical energy -/

theorem dx_val : dx = 1 / 32 := rfl

theorem kC_val : kC = 960000 := by
  rw [kC, Y0, dx]
  norm_num

theorem dh_val : dh = 167 / 1000000 := by
  rw [dh, h]
  norm_num [substepping]

/-- Modelled from the spec: the script computes no energy; the spec defines
the total mechanical energy as the elastic potential
`U = sum_e (k/l0_e)*(l_e - l0_e)^2/2` plus the kinetic energy
`sum_i m*|v_i|^2/2`. -/
noncomputable def energy (E : List (ℕ × ℕ)) (Y : ℝ) (sl : ℕ → ℝ) (Nn : ℕ)
    (s : SimState) : ℝ :=
  (E.enum.map fun p =>
    Y / sl p.1 * (norm2 (s.x p.2.1 - s.x p.2.2) - sl p.1) ^ 2 / 2).sum +
  ((List.range Nn).map fun i => m * (((s.v i).1) ^ 2 + ((s.v i).2) ^ 2) / 2).sum

/-- Total mechanical energy of the C7 configuration. -/
noncomputable def energy7 (s : SimState) : ℝ := energy edges7 Y0 sl7 2 s

/-- Reduced energy: `k*s^2/2 + u^2/2`. -/
noncomputable def E7 (su : ℝ × ℝ) : ℝ := kC * su.1 ^ 2 / 2 + su.2 ^ 2 / 2

theorem energy7_shape (su : ℝ × ℝ) (hq : 0 ≤ dx + su.1) :
    energy7 (shape7 su) = E7 su := by
  show (edges7.enum.map fun p =>
      Y0 / sl7 p.1 *
        (norm2 ((shape7 su).x p.2.1 - (shape7 su).x p.2.2) - sl7 p.1) ^ 2 / 2).sum +
    ((List.range 2).map fun i =>
      m * ((((shape7 su).v i).1) ^ 2 + (((shape7 su).v i).2) ^ 2) / 2).sum = E7 su
  rw [edges7_eq]
  rw [show ([((0 : ℕ), (1 : ℕ))] : List (ℕ × ℕ)).enum = [(0, (0, 1))] from rfl]
  rw [show List.range 2 = [0, 1] from rfl]
  rw [List.map_cons, List.map_nil, List.sum_cons, List.sum_nil, List.map_cons,
    List.map_cons, List.map_nil, List.sum_cons, List.sum_cons, List.sum_nil]
  dsimp only
  rw [show (shape7 su).x 0 = (init_x, init_y) from rfl,
    show (shape7 su).x 1 = (init_x + dx + su.1, init_y) from rfl,
    show (shape7 su).v 0 = ((0 : ℝ), (0 : ℝ)) from rfl,
    show (shape7 su).v 1 = (su.2, 0) from rfl, Prod.mk_sub_mk, sl7_0]
  rw [show init_x - (init_x + dx + su.1) = -(dx + su.1) by ring,
    show init_y - init_y = (0 : ℝ) by ring, norm2_x0, abs_neg, abs_of_nonneg hq]
  rw [E7, kC, m]
  ring

theorem energy7_clamped : energy7 clamped7 = kC * dx ^ 2 / 2 := by
  show (edges7.enum.map fun p =>
      Y0 / sl7 p.1 *
        (norm2 (clamped7.x p.2.1 - clamped7.x p.2.2) - sl7 p.1) ^ 2 / 2).sum +
    ((List.range 2).map fun i =>
      m * (((clamped7.v i).1) ^ 2 + ((clamped7.v i).2) ^ 2) / 2).sum = kC * dx ^ 2 / 2
  rw [edges7_eq]
  rw [show ([((0 : ℕ), (1 : ℕ))] : List (ℕ × ℕ)).enum = [(0, (0, 1))] from rfl]
  rw [show List.range 2 = [0, 1] from rfl]
  rw [List.map_cons, List.map_nil, List.sum_cons, List.sum_nil, List.map_cons,
    List.map_cons, List.map_nil, List.sum_cons, List.sum_cons, List.sum_nil]
  dsimp only
  rw [show clamped7.x 0 = (init_x, init_y) from rfl,
    show clamped7.x 1 = (init_x, init_y) from rfl,
    show clamped7.v 0 = ((0 : ℝ), (0 : ℝ)) from rfl,
    show clamped7.v 1 = ((0 : ℝ), (0 : ℝ)) from rfl, Prod.mk_sub_mk, sub_self, sub_self,
    norm2_zero, sl7_0]
  rw [kC, m]
  ring

/-! #### Symplectic mode: bounded energy via an exactly conserved
modified energy -/

/-- The modified energy `k*s^2/2 + u^2/2 - (dh*k/2)*s*u`, conserved exactly
by the symplectic map. -/
noncomputable def Htilde (su : ℝ × ℝ) : ℝ :=
  kC * su.1 ^ 2 / 2 + su.2 ^ 2 / 2 - dh * kC / 2 * su.1 * su.2

theorem Htilde_stepS (su : ℝ × ℝ) : Htilde (stepS su) = Htilde su := by
  rw [Htilde, Htilde, stepS]
  dsimp only
  ring

theorem Htilde_seqS (n : ℕ) : Htilde (seqS n) = Htilde su0 := by
  induction n with
  | zero => rfl
  | succ k ih => rw [seqS_succ, Htilde_stepS, ih]

/-- Pointwise: the energy exceeds the modified energy by at most a tenth of
itself (the cross term is small at this `dh`-stiffness product). -/
theorem E7_vs_H (su : ℝ × ℝ) : E7 su ≤ Htilde su + 1 / 10 * E7 su := by
  rw [E7, Htilde, dh_val, kC_val]
  nlinarith [sq_nonneg (1000 * su.1 - su.2), sq_nonneg su.1, sq_nonneg su.2]

theorem Htilde_su0 : Htilde su0 = 1875 / 64 := by
  rw [Htilde, su0]
  dsimp only
  rw [kC_val, dx_val]
  ring

theorem E7_seqS_le (n : ℕ) : E7 (seqS n) ≤ 10 / 9 * (1875 / 64) := by
  have h1 := E7_vs_H (seqS n)
  rw [Htilde_seqS n, Htilde_su0] at h1
  linarith

/-- The symplectic stretch never reaches the wall: the spring length stays
positive forever. -/
theorem seqS_q_pos (n : ℕ) : 0 < dx + (seqS n).1 := by
  have hE := E7_seqS_le n
  rw [E7, kC_val] at hE
  rw [dx_val]
  by_contra hc
  push_neg at hc
  nlinarith [sq_nonneg (seqS n).2, hc]

theorem stS_shape (n : ℕ) : stS n = shape7 (seqS n) := by
  induction n with
  | zero => rfl
  | succ k ih =>
      rw [stS_succ, ih]
      exact substep7_sym (seqS k) (seqS_q_pos k) (le_of_lt (seqS_q_pos (k + 1)))

/-- Symplectic-mode energy bound, valid for every number of substeps. -/
theorem energy7_stS_le (n : ℕ) : energy7 (stS n) ≤ 33 := by
  rw [stS_shape n, energy7_shape (seqS n) (le_of_lt (seqS_q_pos n))]
  have := E7_seqS_le n
  linarith

/-! #### Explicit mode: exact geometric energy growth, inversion, clamp,
freeze -/

theorem E7_stepE (su : ℝ × ℝ) : E7 (stepE su) = (1 + dh ^ 2 * kC) * E7 su := by
  rw [E7, E7, stepE]
  dsimp only
  ring

theorem E7_seqE_pos (n : ℕ) : 0 < E7 (seqE n) := by
  induction n with
  | zero =>
      show 0 < E7 su0
      rw [E7, su0]
      dsimp only
      rw [kC_val, dx_val]
      norm_num
  | succ k ih =>
      rw [seqE_succ, E7_stepE]
      have hc : (0 : ℝ) < 1 + dh ^ 2 * kC := by
        rw [dh_val, kC_val]
        norm_num
      exact mul_pos hc ih

/-- The reduced explicit trajectory, exactly, as a pair of integers scaled
by `128 * 10^(6n)`: one substep multiplies the denominator by `10^6` since
`dh = 167/10^6` and `dh*k = 160320000/10^6`. -/
def seqZ : ℕ → ℤ × ℤ :=
  fun n => Nat.rec ((1 : ℤ), (0 : ℤ))
    (fun _ p => (1000000 * p.1 + 167 * p.2, 1000000 * p.2 - 160320000 * p.1)) n

theorem seqZ_succ (n : ℕ) :
    seqZ (n + 1) = (1000000 * (seqZ n).1 + 167 * (seqZ n).2,
      1000000 * (seqZ n).2 - 160320000 * (seqZ n).1) := rfl

theorem seqE_int (n : ℕ) :
    seqE n = (((seqZ n).1 : ℝ) / (128 * 10 ^ (6 * n)),
      ((seqZ n).2 : ℝ) / (128 * 10 ^ (6 * n))) := by
  induction n with
  | zero =>
      show su0 = _
      rw [show seqZ 0 = ((1 : ℤ), (0 : ℤ)) from rfl, su0, dx]
      norm_num
  | succ k ih =>
      rw [seqE_succ, ih, stepE, seqZ_succ]
      dsimp only
      have hD : (10 : ℝ) ^ (6 * (k + 1)) = 10 ^ (6 * k) * 10 ^ 6 := by
        rw [show 6 * (k + 1) = 6 * k + 6 by ring, pow_add]
      have hDne : ((10 : ℝ) ^ (6 * k)) ≠ 0 := by positivity
      rw [Prod.mk.injEq]
      constructor
      · rw [dh_val, hD]
        push_cast
        field_simp
        ring
      · rw [dh_val, kC_val, hD]
        push_cast
        field_simp
        ring

theorem q_pos_of_int (n : ℕ) (hz : 0 < 4 * 10 ^ (6 * n) + (seqZ n).1) :
    0 < dx + (seqE n).1 := by
  rw [seqE_int n]
  dsimp only
  rw [dx_val]
  have hD : (0 : ℝ) < 128 * 10 ^ (6 * n) := by positivity
  have key : (0 : ℝ) < 4 * 10 ^ (6 * n) + ((seqZ n).1 : ℝ) := by
    have : ((4 * 10 ^ (6 * n) + (seqZ n).1 : ℤ) : ℝ) > 0 := by exact_mod_cast hz
    push_cast at this
    linarith
  rw [show (1 : ℝ) / 32 + ((seqZ n).1 : ℝ) / (128 * 10 ^ (6 * n)) =
      (4 * 10 ^ (6 * n) + ((seqZ n).1 : ℝ)) / (128 * 10 ^ (6 * n)) from by
    field_simp
    ring]
  exact div_pos key hD

theorem q_neg_of_int (n : ℕ) (hz : 4 * 10 ^ (6 * n) + (seqZ n).1 < 0) :
    dx + (seqE n).1 < 0 := by
  rw [seqE_int n]
  dsimp only
  rw [dx_val]
  have hD : (0 : ℝ) < 128 * 10 ^ (6 * n) := by positivity
  have key : 4 * 10 ^ (6 * n) + ((seqZ n).1 : ℝ) < 0 := by
    have : ((4 * 10 ^ (6 * n) + (seqZ n).1 : ℤ) : ℝ) < 0 := by exact_mod_cast hz
    push_cast at this
    linarith
  rw [show (1 : ℝ) / 32 + ((seqZ n).1 : ℝ) / (128 * 10 ^ (6 * n)) =
      (4 * 10 ^ (6 * n) + ((seqZ n).1 : ℝ)) / (128 * 10 ^ (6 * n)) from by
    field_simp
    ring]
  exact div_neg_of_neg_of_pos key hD

set_option maxRecDepth 100000 in
/-- Exact integer check: the spring length stays positive through substep
130 of the explicit run. -/
theorem seqZ_pos_le130 : ∀ i : ℕ, i ≤ 130 → 0 < 4 * 10 ^ (6 * i) + (seqZ i).1 := by
  decide

set_option maxRecDepth 100000 in
/-- Exact integer check: at substep 131 the explicit run drives the spring
length negative (node 1 crosses the wall line). -/
theorem seqZ_neg_131 : 4 * 10 ^ (6 * 131) + (seqZ 131).1 < 0 := by
  decide

set_option maxRecDepth 100000 in
/-- Exact integer check: the explicit energy just before the clamp exceeds
the post-clamp energy `k*dx^2/2` (i.e. `E_130 > 468.75`). -/
theorem seqZ_energy_130 :
    (15360000 : ℤ) * (10 ^ (6 * 130)) ^ 2 <
      960000 * (seqZ 130).1 ^ 2 + (seqZ 130).2 ^ 2 := by
  decide

theorem stE_shape (n : ℕ) (hn : n ≤ 130) : stE n = shape7 (seqE n) := by
  induction n with
  | zero => rfl
  | succ k ih =>
      rw [stE_succ, ih (by omega)]
      exact substep7_exp (seqE k)
        (q_pos_of_int k (seqZ_pos_le130 k (by omega)))
        (le_of_lt (q_pos_of_int (k + 1) (seqZ_pos_le130 (k + 1) hn)))

theorem stE_131 : stE 131 = clamped7 := by
  rw [show (131 : ℕ) = 130 + 1 from rfl, stE_succ, stE_shape 130 (by norm_num)]
  exact substep7_exp_clamp (seqE 130)
    (q_pos_of_int 130 (seqZ_pos_le130 130 (by norm_num)))
    (q_neg_of_int 131 seqZ_neg_131)

/-- The explicit-mode energy drops at the clamp event. -/
theorem energy7_drop :
    energy7 (stE 131) < energy7 (stE 130) := by
  rw [stE_131, stE_shape 130 (by norm_num), energy7_clamped,
    energy7_shape (seqE 130)
      (le_of_lt (q_pos_of_int 130 (seqZ_pos_le130 130 (by norm_num))))]
  rw [seqE_int 130, E7]
  dsimp only
  rw [kC_val, dx_val]
  have hD : (0 : ℝ) < 128 * 10 ^ (6 * 130) := by positivity
  have key : (15360000 : ℝ) * ((10 : ℝ) ^ (6 * 130)) ^ 2 <
      960000 * ((seqZ 130).1 : ℝ) ^ 2 + ((seqZ 130).2 : ℝ) ^ 2 := by
    exact_mod_cast seqZ_energy_130
  have hD2 : (128 * (10 : ℝ) ^ (6 * 130)) ^ 2 = 16384 * ((10 : ℝ) ^ (6 * 130)) ^ 2 := by
    rw [mul_pow]
    norm_num
  have hDne : (128 * (10 : ℝ) ^ (6 * 130)) ≠ 0 := ne_of_gt hD
  rw [show 960000 * (((seqZ 130).1 : ℝ) / (128 * 10 ^ (6 * 130))) ^ 2 / 2 +
      (((seqZ 130).2 : ℝ) / (128 * 10 ^ (6 * 130))) ^ 2 / 2 =
      (960000 * ((seqZ 130).1 : ℝ) ^ 2 + ((seqZ 130).2 : ℝ) ^ 2) /
        (2 * (128 * 10 ^ (6 * 130)) ^ 2) from by
    rw [div_pow, div_pow, div_add_div _ _ (by positivity) (by positivity),
      div_eq_div_iff (by positivity) (by positivity)]
    ring]
  rw [lt_div_iff (by positivity)]
  rw [hD2]
  calc 960000 * ((1 : ℝ) / 32) ^ 2 / 2 * (2 * (16384 * ((10 : ℝ) ^ (6 * 130)) ^ 2)) =
      15360000 * ((10 : ℝ) ^ (6 * 130)) ^ 2 := by ring
  _ < 960000 * ((seqZ 130).1 : ℝ) ^ 2 + ((seqZ 130).2 : ℝ) ^ 2 := key

/-- C7 is false as stated: on the 2-node, 1-spring zero-gravity
configuration released from stretch `dx/4`, the explicit-Euler energy does
not grow monotonically past every threshold.  It grows by the exact factor
`1 + dh^2*k` per substep only while the spring stays extended; at substep
131 node 1 crosses the wall line, the left clamp pins it onto the wall
anchor, and the energy drops — so the step from substep 130 to 131 violates
monotonic growth. -/
theorem C7_counterexample :
    ¬∀ n : ℕ, energy7 (stE n) < energy7 (stE (n + 1)) := by
  intro hmono
  have hstep := hmono 130
  exact lt_irrefl _ (lt_trans hstep energy7_drop)

/-- C7 (amended): for the 2-node, 1-spring configuration (2 x 1 grid, zero
gravity, damping and picking off, default stiffness `3e4` and substep size
`dh = h/substepping`, released from rest at stretch `dx/4`): the symplectic
mode (`integration == 2`) keeps the total mechanical energy (elastic plus
kinetic) below 33 for every number of substeps — in particular over 10,000
substeps — while the explicit-Euler mode (`integration == 1`) grows the
energy strictly monotonically only until the spring inverts: the energy
increases at every substep up to substep 130 and drops when the left clamp
fires at substep 131, so it does not grow monotonically past every fixed
threshold.  (From substep 131 on the two nodes coincide and the spring
length is zero, a degenerate regime the spec leaves undefined and the `f32`
source turns into NaN, so nothing is asserted beyond that substep.) -/
theorem C7_energy_behavior :
    (∀ n : ℕ, energy7 (stS n) ≤ 33) ∧
      (∀ n : ℕ, n < 130 → energy7 (stE n) < energy7 (stE (n + 1))) ∧
      energy7 (stE 131) < energy7 (stE 130) := by
  refine ⟨energy7_stS_le, ?_, energy7_drop⟩
  intro n hn
  rw [stE_shape n (by omega), stE_shape (n + 1) (by omega),
    energy7_shape (seqE n)
      (le_of_lt (q_pos_of_int n (seqZ_pos_le130 n (by omega)))),
    energy7_shape (seqE (n + 1))
      (le_of_lt (q_pos_of_int (n + 1) (seqZ_pos_le130 (n + 1) (by omega)))),
    seqE_succ, E7_stepE]
  have hpos := E7_seqE_pos n
  have hc : (0 : ℝ) < dh ^ 2 * kC := by
    rw [dh_val, kC_val]
    norm_num
  nlinarith [mul_pos hc hpos]

theorem C7_witness :
    (0 : ℕ) < 130 ∧
      energy7 (stS 10000) ≤ 33 ∧
      energy7 (stE 0) < energy7 (stE (0 + 1)) ∧
      energy7 (stE 131) < energy7 (stE 130) :=
  ⟨by norm_num, C7_energy_behavior.1 10000,
    C7_energy_behavior.2.1 0 (by norm_num), C7_energy_behavior.2.2⟩

end MassSpring
